import Mathlib

/-!
# Active-response forwarder (`src/remoted/ar-forward.c`)

A shallow embedding of `AR_Forward` and `send_msg`.

* The receive buffer `msg` is a list of bytes; pointers into it (`location`,
  `tmp_str`, `ar_location_str`, `ar_agent_id`) are indices.  The buffer is
  declared once, outside the daemon loop, so it is part of the loop state and
  keeps whatever an earlier iteration left in it.
* A C string read through a pointer is the run of bytes from that index up to
  the first NUL byte.
* Everything the two functions do to the outside (roster lookups, error
  reports, calls of `send_msg`, encryption, lock, datagram write) is appended
  to a trace.
* Constants that come from headers outside the translated file are the fields
  of `Config`; the results of external calls made inside `send_msg` are the
  fields of `Extern`.
* Concurrent callers of `send_msg` are a schedule: a list of events, each with
  the number of its caller, that interleaves the traces of the single calls.
  The mutex enters as the condition that a lock call returns 0 only when the
  mutex has no holder.
-/

set_option autoImplicit false

namespace ARForward

/-! ## Bytes, C strings and the string primitives of libc -/

/-- The terminating byte of a C string. -/
def NUL : Char := Char.ofNat 0

/-- The C string that starts at index `i` of `buf`: the bytes from `i` up to,
and not including, the first NUL byte. -/
def cstr (buf : List Char) (i : Nat) : List Char :=
  (buf.drop i).takeWhile (fun x => x != NUL)

/-- Scan of `strchr`: `i` is the index of the head of the list. The scan stops
at the first byte equal to `c` (found) or at the terminating NUL (not found). -/
def strchrAux (c : Char) : List Char → Nat → Option Nat
  | [], _ => none
  | x :: xs, i =>
    if x = c then some i
    else if x = NUL then none
    else strchrAux c xs (i + 1)

/-- The call `strchr(buf + s, c)`: index of the first `c` in the C string that
starts at index `s`, or `none` for a NULL result. -/
def strchr (buf : List Char) (s : Nat) (c : Char) : Option Nat :=
  strchrAux c (buf.drop s) s

/-- The call `snprintf(dst, size, "%s%s%s", a, b, c)`: the C string left in
`dst`, which holds at most `size - 1` bytes before its terminator. -/
def snprintf (size : Nat) (a b c : List Char) : List Char :=
  (a ++ b ++ c).take (size - 1)

/-! ## Constants and collaborators from outside the file -/

/-- Modelled from the spec: the constant `OS_SIZE_1024` comes from a header
that is not under src/; it is the frame limit of the spec, with the value its
name states. -/
def OS_SIZE_1024 : Nat := 1024

/-- The remaining constants used by `ar-forward.c`, all declared in headers
outside the file: the three sentinel characters of the mode code, the three
bits of `ar_location`, the two headers put before the payload, and the
notification interval. -/
structure Config where
  ALL_AGENTS_C : Char
  REMOTE_AGENT_C : Char
  SPECIFIC_AGENT_C : Char
  ALL_AGENTS : Nat
  REMOTE_AGENT : Nat
  SPECIFIC_AGENT : Nat
  CONTROL_HEADER : List Char
  EXECD_HEADER : List Char
  NOTIFY_TIME : Int

/-- The three mode bits are usable as independent flags: each is non-zero and
no two of them overlap. -/
def Config.flagsDistinct (cfg : Config) : Prop :=
  cfg.ALL_AGENTS ≠ 0 ∧ cfg.REMOTE_AGENT ≠ 0 ∧ cfg.SPECIFIC_AGENT ≠ 0 ∧
  cfg.ALL_AGENTS &&& cfg.REMOTE_AGENT = 0 ∧
  cfg.ALL_AGENTS &&& cfg.SPECIFIC_AGENT = 0 ∧
  cfg.REMOTE_AGENT &&& cfg.SPECIFIC_AGENT = 0

/-- The global `keys` as far as `AR_Forward` reads it: the number of roster
entries and the two lookups, which return an index or a negative number. -/
structure keystore where
  keysize : Int
  IsAllowedName : List Char → Int
  IsAllowedID : List Char → Int

/-- What one call of `send_msg` finds outside: the last-contact table
`keys.rcvd`, the clock `time(0)`, and the results of `CreateSecMSG`,
`pthread_mutex_lock`, `sendto` and `pthread_mutex_unlock`. -/
structure Extern where
  rcvd : Int → Int
  time : Int
  CreateSecMSG : List Char → Int → Int
  pthread_mutex_lock : Int
  sendto : Int
  pthread_mutex_unlock : Int

/-- Observable actions, in the order the code performs them. -/
inductive Event where
  /-- `merror(EXECD_INV_MSG, ARGV0, msg)` -/
  | merror_inv_msg (msg : List Char)
  /-- `merror(AR_NOAGENT_ERROR, ARGV0, s)` -/
  | merror_noagent (s : List Char)
  /-- `merror(SEC_ERROR, ARGV0)` -/
  | merror_sec
  /-- `merror(MUTEX_ERROR, ARGV0)` -/
  | merror_mutex
  /-- `merror(SEND_ERROR, ARGV0, keys.ids[agentid])` -/
  | merror_send (agentid : Int)
  /-- `IsAllowedName(&keys, name)` and its result -/
  | IsAllowedName (name : List Char) (result : Int)
  /-- `IsAllowedID(&keys, id)` and its result -/
  | IsAllowedID (id : List Char) (result : Int)
  /-- entry into `send_msg(agentid, msg)` -/
  | send_msg (agentid : Int) (msg : List Char)
  /-- `CreateSecMSG(&keys, msg, crypt_msg, agentid)` and its result -/
  | CreateSecMSG (msg : List Char) (agentid : Int) (msg_size : Int)
  /-- `pthread_mutex_lock(&sendmsg_mutex)` and its result -/
  | pthread_mutex_lock (result : Int)
  /-- `sendto(logr.sock, crypt_msg, msg_size, ...)` to the address of `agentid`, and its result -/
  | sendto (agentid : Int) (msg_size : Int) (result : Int)
  /-- `pthread_mutex_unlock(&sendmsg_mutex)` and its result -/
  | pthread_mutex_unlock (result : Int)
  deriving DecidableEq, Repr

/-- The outside world: `ext n` is what the `n`-th call of `send_msg` finds,
`calls` counts the calls made so far, `trace` records the actions. -/
structure World where
  ext : Nat → Extern
  calls : Nat
  trace : List Event

/-- Append one action to the trace. -/
def World.log (w : World) (e : Event) : World :=
  { w with trace := w.trace ++ [e] }

/-! ## `send_msg` (lines 191-238) -/

/-- The function `send_msg(agentid, msg)`: returns the C result and the world
after the call. The `time_t` and `int` values of the liveness test are
integers: for clock values and a notification interval of a realistic size
the expression `time(0) - (2*NOTIFY_TIME)` does not wrap. -/
def send_msg (cfg : Config) (w : World) (agentid : Int) (msg : List Char) : Int × World :=
  let e := w.ext w.calls
  let w0 : World := { w with calls := w.calls + 1, trace := w.trace ++ [Event.send_msg agentid msg] }
  -- If we don't have the agent id, ignore it
  if e.rcvd agentid < e.time - 2 * cfg.NOTIFY_TIME then
    (-1, w0)
  else
    let msg_size := e.CreateSecMSG msg agentid
    let w1 := w0.log (Event.CreateSecMSG msg agentid msg_size)
    if msg_size = 0 then
      (-1, w1.log Event.merror_sec)
    else
      -- Locking before using
      let w2 := w1.log (Event.pthread_mutex_lock e.pthread_mutex_lock)
      if e.pthread_mutex_lock ≠ 0 then
        (-1, w2.log Event.merror_mutex)
      else
        -- Sending initial message
        let w3 := w2.log (Event.sendto agentid msg_size e.sendto)
        let w4 := if e.sendto < 0 then w3.log (Event.merror_send agentid) else w3
        -- Unlocking mutex
        let w5 := w4.log (Event.pthread_mutex_unlock e.pthread_mutex_unlock)
        if e.pthread_mutex_unlock ≠ 0 then
          (-1, w5.log Event.merror_mutex)
        else
          (0, w5)

/-! ## `AR_Forward` (lines 29-177) -/

/-- Modelled from the spec: the function `OS_RecvUnix` is defined in os_net,
not under src/. The spec gives it as the blocking pull of the next directive
from the local queue; the call site hands it the buffer `msg` and the size
`OS_SIZE_1024`. The model stores at most `sizet - 1` bytes of the datagram at
the start of the caller's buffer, puts a NUL byte after them, leaves the rest
of the buffer as it was, and returns the number of bytes stored. -/
def OS_RecvUnix (sizet : Nat) (ret : List Char) (dgram : List Char) : Nat × List Char :=
  let data := dgram.take (sizet - 1)
  (data.length, data ++ NUL :: ret.drop (data.length + 1))

/-- The pointers that the parsing part of the loop body leaves behind. -/
structure Parsed where
  location : Nat
  ar_agent_id : Nat
  tmp_str : Nat
  deriving DecidableEq, Repr

/-- Lines 62-128 of the loop body: the scan of the received line. Returns the
buffer after the in-place writes, the value of `ar_location`, and the
pointers, or `none` for the pointers where the code reports `EXECD_INV_MSG`
and continues with the next directive. A read past the end of the buffer
gives NUL. -/
def parse (cfg : Config) (msg : List Char) : List Char × Nat × Option Parsed :=
  -- Always zeroing the location
  let ar_location := 0
  -- Location is going to be the agent name
  match strchr msg 0 ')' with
  | none => (msg, ar_location, none)
  | some p =>
    let msg := msg.set p NUL
    -- Going after the ')' and space; extracting the source ip
    match strchr msg (p + 2) ' ' with
    | none => (msg, ar_location, none)
    | some q =>
      let tmp_str := q + 1
      let location := 0 + 1
      -- Setting ar_location
      let ar_location_str := tmp_str
      let ar_location :=
        if msg.getD tmp_str NUL = cfg.ALL_AGENTS_C then ar_location ||| cfg.ALL_AGENTS
        else ar_location
      let tmp_str := tmp_str + 1
      let ar_location :=
        if msg.getD tmp_str NUL = cfg.REMOTE_AGENT_C then ar_location ||| cfg.REMOTE_AGENT
        else ar_location
      let tmp_str := tmp_str + 1
      let ar_location :=
        if msg.getD tmp_str NUL = cfg.SPECIFIC_AGENT_C then ar_location ||| cfg.SPECIFIC_AGENT
        else ar_location
      -- Extracting the active response location
      match strchr msg ar_location_str ' ' with
      | none => (msg, ar_location, none)
      | some r =>
        let msg := msg.set r NUL
        let tmp_str := r + 1
        -- Extracting the agent id
        let ar_agent_id := tmp_str
        match strchr msg tmp_str ' ' with
        | none => (msg, ar_location, none)
        | some s =>
          let msg := msg.set s NUL
          let tmp_str := s + 1
          (msg, ar_location, some { location := location, ar_agent_id := ar_agent_id, tmp_str := tmp_str })

/-- The loop `for(i = 0; i < keys.keysize; i++) send_msg(i, msg_to_send);`.
The result of each call is discarded, as in the source. -/
def send_all (cfg : Config) (keys : keystore) (w : World) (msg_to_send : List Char) : World :=
  (List.range keys.keysize.toNat).foldl
    (fun w i => (send_msg cfg w (Int.ofNat i) msg_to_send).2) w

/-- Lines 138-174 of the loop body: deliver `msg_to_send` according to
`ar_location`. The pointer arguments are given as the C strings they point
to: `location` is the originating peer name, `ar_agent_id` the target peer
id. Returns the world and the final value of `ar_location`. -/
def dispatch (cfg : Config) (keys : keystore) (w : World) (ar_location : Nat)
    (location ar_agent_id msg_to_send : List Char) : World × Nat :=
  -- Sending to ALL agents
  if ar_location &&& cfg.ALL_AGENTS ≠ 0 then
    (send_all cfg keys w msg_to_send, ar_location)
  -- Send to the remote agent that generated the event (location is never NULL here)
  else if ar_location &&& cfg.REMOTE_AGENT ≠ 0 then
    let agent_id := keys.IsAllowedName location
    let w := w.log (Event.IsAllowedName location agent_id)
    if agent_id < 0 then
      (w.log (Event.merror_noagent location), ar_location)
    else
      ((send_msg cfg w agent_id msg_to_send).2, ar_location)
  -- Send to a pre-defined agent
  else if ar_location &&& cfg.SPECIFIC_AGENT ≠ 0 then
    let ar_location := ar_location + 1
    let agent_id := keys.IsAllowedID ar_agent_id
    let w := w.log (Event.IsAllowedID ar_agent_id agent_id)
    if agent_id < 0 then
      (w.log (Event.merror_noagent ar_agent_id), ar_location)
    else
      ((send_msg cfg w agent_id msg_to_send).2, ar_location)
  else
    (w, ar_location)

/-- The variables of `AR_Forward` that live across iterations of the daemon
loop, and the outside world. -/
structure State where
  msg : List Char
  ar_location : Nat
  world : World

/-- State at the top of the daemon loop: `memset(msg, 0, OS_SIZE_1024 + 1)`
and `ar_location = 0`. -/
def State.init (w : World) : State :=
  { msg := List.replicate (OS_SIZE_1024 + 1) NUL, ar_location := 0, world := w }

/-- One iteration of the daemon loop (lines 56-175) on the datagram that
`OS_RecvUnix` receives. -/
def AR_Forward_iter (cfg : Config) (keys : keystore) (st : State) (dgram : List Char) : State :=
  let r := OS_RecvUnix OS_SIZE_1024 st.msg dgram
  if r.1 = 0 then
    { st with msg := r.2 }
  else
    match parse cfg r.2 with
    | (msg, ar_location, none) =>
      { msg := msg, ar_location := ar_location,
        world := st.world.log (Event.merror_inv_msg (cstr msg 0)) }
    | (msg, ar_location, some p) =>
      -- Creating the new message
      let msg_to_send :=
        snprintf OS_SIZE_1024 cfg.CONTROL_HEADER cfg.EXECD_HEADER (cstr msg p.tmp_str)
      let d := dispatch cfg keys st.world ar_location
        (cstr msg p.location) (cstr msg p.ar_agent_id) msg_to_send
      { msg := msg, ar_location := d.2, world := d.1 }

/-- The daemon loop over the datagrams that arrive, in order. -/
def AR_Forward (cfg : Config) (keys : keystore) (w : World) (dgrams : List (List Char)) : State :=
  dgrams.foldl (AR_Forward_iter cfg keys) (State.init w)

/-! ## Observations used to state the properties -/

/-- What the parser extracts from an accepted directive: the mode bits and
the three C strings behind the pointers `location`, `ar_agent_id` and
`tmp_str` (originating peer name, target peer id, command payload). -/
structure Directive where
  ar_location : Nat
  location : List Char
  ar_agent_id : List Char
  payload : List Char
  deriving DecidableEq, Repr

/-- The directive that an iteration starting with buffer `buf` extracts from
the datagram `dgram`; `none` when nothing is received or the line is
reported as invalid. -/
def directive (cfg : Config) (buf : List Char) (dgram : List Char) : Option Directive :=
  let r := OS_RecvUnix OS_SIZE_1024 buf dgram
  if r.1 = 0 then none
  else
    match parse cfg r.2 with
    | (_, _, none) => none
    | (msg, ar_location, some p) =>
      some { ar_location := ar_location, location := cstr msg p.location,
             ar_agent_id := cstr msg p.ar_agent_id, payload := cstr msg p.tmp_str }

/-- The formatted command built for a directive (lines 131-135). -/
def Directive.msg_to_send (cfg : Config) (d : Directive) : List Char :=
  snprintf OS_SIZE_1024 cfg.CONTROL_HEADER cfg.EXECD_HEADER d.payload

/-- The calls of `send_msg` in a trace, in order: agent index and message. -/
def sendCalls : List Event → List (Int × List Char)
  | [] => []
  | Event.send_msg a m :: es => (a, m) :: sendCalls es
  | _ :: es => sendCalls es

/-- The roster lookups are the `IsAllowedName` and `IsAllowedID` events. -/
def isLookup : Event → Bool
  | Event.IsAllowedName _ _ => true
  | Event.IsAllowedID _ _ => true
  | _ => false

/-- The actions performed inside `send_msg`, after its entry. -/
def isInner : Event → Bool
  | Event.merror_sec => true
  | Event.merror_mutex => true
  | Event.merror_send _ => true
  | Event.CreateSecMSG _ _ _ => true
  | Event.pthread_mutex_lock _ => true
  | Event.sendto _ _ _ => true
  | Event.pthread_mutex_unlock _ => true
  | _ => false

/-- The value that lines 90-105 give to `ar_location` when the three bytes at
`ar_location_str` are `m0`, `m1`, `m2`. -/
def modeBits (cfg : Config) (m0 m1 m2 : Char) : Nat :=
  let a := if m0 = cfg.ALL_AGENTS_C then 0 ||| cfg.ALL_AGENTS else 0
  let a := if m1 = cfg.REMOTE_AGENT_C then a ||| cfg.REMOTE_AGENT else a
  if m2 = cfg.SPECIFIC_AGENT_C then a ||| cfg.SPECIFIC_AGENT else a

/-- The directive wire format as section 6 of the spec gives it,
`(<originating-peer-name>) <source-address> <mode-3-char> <target-peer-id> <command-payload...>`,
with the three characters of the mode code given one by one. -/
def wireFormat (name addr : List Char) (m0 m1 m2 : Char) (id payload : List Char) : List Char :=
  '(' :: (name ++ ')' :: ' ' :: (addr ++ ' ' :: m0 :: m1 :: m2 :: ' ' :: (id ++ ' ' :: payload)))

/-- Every call of `send_msg` in `evs` is addressed to a roster entry: its
agent index is not negative and is either below `keys.keysize` or the result
of a lookup by name or by id recorded in `evs`. -/
def rosterAddressed (keys : keystore) (evs : List Event) : Prop :=
  ∀ a m, Event.send_msg a m ∈ evs →
    0 ≤ a ∧ (a < keys.keysize ∨
      ∃ s, (Event.IsAllowedName s a ∈ evs ∧ keys.IsAllowedName s = a) ∨
        (Event.IsAllowedID s a ∈ evs ∧ keys.IsAllowedID s = a))

/-! ## Sample values for the examples of the spec -/

/-- Modelled from the spec: the headers that define the constants are not
under src/. The examples of the spec mark a set flag with the character 1 at
its position (mode codes 100, 010, 001), so each sentinel is that character;
the bits are 1, 2 and 4; the two headers and the interval are sample values. -/
def specConfig : Config :=
  { ALL_AGENTS_C := '1', REMOTE_AGENT_C := '1', SPECIFIC_AGENT_C := '1',
    ALL_AGENTS := 1, REMOTE_AGENT := 2, SPECIFIC_AGENT := 4,
    CONTROL_HEADER := "#!-".toList, EXECD_HEADER := "execd ".toList,
    NOTIFY_TIME := 600 }

/-- A roster of three peers whose names and ids are agentA, agentB and agentC. -/
def sampleKeys : keystore :=
  { keysize := 3,
    IsAllowedName := fun n =>
      if n = "agentA".toList then 0 else if n = "agentB".toList then 1
      else if n = "agentC".toList then 2 else -1,
    IsAllowedID := fun i =>
      if i = "agentA".toList then 0 else if i = "agentB".toList then 1
      else if i = "agentC".toList then 2 else -1 }

/-- An outside where every peer was heard from just now and every external call succeeds. -/
def okExtern : Extern :=
  { rcvd := fun _ => 1000000, time := 1000000,
    CreateSecMSG := fun m _ => Int.ofNat m.length + 8,
    pthread_mutex_lock := 0, sendto := 0, pthread_mutex_unlock := 0 }

/-- The world in which all calls succeed, with an empty trace. -/
def okWorld : World := { ext := fun _ => okExtern, calls := 0, trace := [] }

/-- An outside in which the peer was last heard from one second before the threshold. -/
def staleExtern : Extern := { okExtern with rcvd := fun _ => 1000000 - 2 * 600 - 1 }

/-- An outside in which the peer was last heard from exactly at the threshold
`time(0) - 2 * NOTIFY_TIME`. -/
def boundaryExtern : Extern := { okExtern with rcvd := fun _ => 1000000 - 2 * 600 }

/-- A world whose single pending call of `send_msg` finds a stale peer. -/
def staleWorld : World := { ext := fun _ => staleExtern, calls := 0, trace := [] }

/-- A world whose calls of `send_msg` find the peer exactly at the threshold. -/
def boundaryWorld : World := { ext := fun _ => boundaryExtern, calls := 0, trace := [] }

/-- A world in which the first three calls of `send_msg` fail, each in its own
way: a stale peer, an encryption failure, a lock failure. -/
def failingWorld : World :=
  { ext := fun n =>
      if n = 0 then staleExtern
      else if n = 1 then { okExtern with CreateSecMSG := fun _ _ => 0 }
      else { okExtern with pthread_mutex_lock := 1 },
    calls := 0, trace := [] }

/-- The Broadcast example of the spec. -/
def lineBroadcast : List Char := "(agentA) 10.0.0.5 100 - restart-service".toList

/-- The OriginatingPeer example of the spec. -/
def lineOriginating : List Char := "(agentA) 10.0.0.5 010 - restart-service".toList

/-- The SpecificPeer example of the spec. -/
def lineSpecific : List Char := "(agentA) 10.0.0.5 001 agentB restart-service".toList

/-- The formatted command of the example lines. -/
def sampleCommand : List Char := "#!-execd restart-service".toList

/-- A directive with a payload of several words, delivered to agentB. -/
def lineWithArguments : List Char := "(agentA) 10.0.0.5 001 agentB run 100 agentC reboot".toList

/-- A line that has the closing parenthesis as its last byte and no space at all. -/
def lineNoDelimiters : List Char := "(no-delimiters-in-this-line)".toList

/-- A line without a closing parenthesis. -/
def lineNoParen : List Char := "(ab 10.0.0.5 100 - reboot".toList

/-- The formatted command that carries the payload `reboot`. -/
def rebootCommand : List Char := "#!-execd reboot".toList

/-! ## Observations on the lock protocol -/

/-- Whether the transmission lock is held after the events, given whether it
was held before them: a call of `pthread_mutex_lock` or
`pthread_mutex_unlock` changes the state only when it returns 0. -/
def lockAfter : Bool → List Event → Bool
  | held, [] => held
  | held, Event.pthread_mutex_lock r :: es => lockAfter (if r = 0 then true else held) es
  | held, Event.pthread_mutex_unlock r :: es => lockAfter (if r = 0 then false else held) es
  | held, _ :: es => lockAfter held es

/-- Every datagram write in the events happens while the lock is held. -/
def writesLocked : Bool → List Event → Bool
  | _, [] => true
  | held, Event.sendto _ _ _ :: es => held && writesLocked held es
  | held, Event.pthread_mutex_lock r :: es => writesLocked (if r = 0 then true else held) es
  | held, Event.pthread_mutex_unlock r :: es => writesLocked (if r = 0 then false else held) es
  | held, _ :: es => writesLocked held es

/-- The number of datagram writes in the events. -/
def writeCount : List Event → Nat
  | [] => 0
  | Event.sendto _ _ _ :: es => writeCount es + 1
  | _ :: es => writeCount es

/-- Some call of `pthread_mutex_unlock` occurs in the events. -/
def hasUnlock : List Event → Bool
  | [] => false
  | Event.pthread_mutex_unlock _ :: _ => true
  | _ :: es => hasUnlock es

/-- Every successful acquisition of the lock and every datagram write is
followed, later in the events, by a call of `pthread_mutex_unlock`. -/
def releaseFollows : List Event → Bool
  | [] => true
  | Event.pthread_mutex_lock r :: es => (r != 0 || hasUnlock es) && releaseFollows es
  | Event.sendto _ _ _ :: es => hasUnlock es && releaseFollows es
  | _ :: es => releaseFollows es

/-- An outside in which the peer is live and the encryption returns a
zero-length result. -/
def encFailExtern : Extern := { okExtern with CreateSecMSG := fun _ _ => 0 }

/-- A world in which the second call of `send_msg` meets the encryption
failure and every other call succeeds. -/
def encFailWorld : World :=
  { ext := fun n => if n = 1 then encFailExtern else okExtern, calls := 0, trace := [] }

/-- An outside in which only the datagram write fails. -/
def sendFailExtern : Extern := { okExtern with sendto := -1 }

/-- A world in which the datagram write of every call fails. -/
def sendFailWorld : World := { ext := fun _ => sendFailExtern, calls := 0, trace := [] }

/-- A broadcast directive with a payload of 1015 bytes: with the two sample
headers the formatted command would have 1024 bytes. -/
def lineLongPayload : List Char := "() 1 1  ".toList ++ List.replicate 1015 'x'

/-- The directive wire format of section 6 of the spec with a mode-code field
of any length: `(name) addr mode id payload`. -/
def wireLine (name addr mode id payload : List Char) : List Char :=
  '(' :: (name ++ ')' :: ' ' :: (addr ++ ' ' :: (mode ++ ' ' :: (id ++ ' ' :: payload))))

/-- A well-delimited directive whose mode-code field has one character, not
the sentinel, and whose target peer id begins with the sentinel character. -/
def lineShortMode : List Char := "(agentA) 10.0.0.5 0 1b cmd".toList

/-- A line whose first byte is the closing parenthesis. -/
def lineLeadingParen : List Char := ") 10.0.0.5 010 - cmd".toList

/-- A well-delimited directive with none of the three mode flags set. -/
def lineNoFlag : List Char := "(agentA) 10.0.0.5 000 agentB restart-service".toList

/-! ## The dispatcher without the increment of line 163 -/

/-- The dispatch of lines 138-174 with the statement `ar_location++` of the
SpecificPeer path removed; everything else is as in `dispatch`. -/
def dispatch_noinc (cfg : Config) (keys : keystore) (w : World) (ar_location : Nat)
    (location ar_agent_id msg_to_send : List Char) : World × Nat :=
  if ar_location &&& cfg.ALL_AGENTS ≠ 0 then
    (send_all cfg keys w msg_to_send, ar_location)
  else if ar_location &&& cfg.REMOTE_AGENT ≠ 0 then
    let agent_id := keys.IsAllowedName location
    let w := w.log (Event.IsAllowedName location agent_id)
    if agent_id < 0 then
      (w.log (Event.merror_noagent location), ar_location)
    else
      ((send_msg cfg w agent_id msg_to_send).2, ar_location)
  else if ar_location &&& cfg.SPECIFIC_AGENT ≠ 0 then
    let agent_id := keys.IsAllowedID ar_agent_id
    let w := w.log (Event.IsAllowedID ar_agent_id agent_id)
    if agent_id < 0 then
      (w.log (Event.merror_noagent ar_agent_id), ar_location)
    else
      ((send_msg cfg w agent_id msg_to_send).2, ar_location)
  else
    (w, ar_location)

/-- One iteration of the daemon loop with `dispatch_noinc` in the place of `dispatch`. -/
def AR_Forward_iter_noinc (cfg : Config) (keys : keystore) (st : State)
    (dgram : List Char) : State :=
  let r := OS_RecvUnix OS_SIZE_1024 st.msg dgram
  if r.1 = 0 then
    { st with msg := r.2 }
  else
    match parse cfg r.2 with
    | (msg, ar_location, none) =>
      { msg := msg, ar_location := ar_location,
        world := st.world.log (Event.merror_inv_msg (cstr msg 0)) }
    | (msg, ar_location, some p) =>
      let msg_to_send :=
        snprintf OS_SIZE_1024 cfg.CONTROL_HEADER cfg.EXECD_HEADER (cstr msg p.tmp_str)
      let d := dispatch_noinc cfg keys st.world ar_location
        (cstr msg p.location) (cstr msg p.ar_agent_id) msg_to_send
      { msg := msg, ar_location := d.2, world := d.1 }

/-- The daemon loop with the increment removed. -/
def AR_Forward_noinc (cfg : Config) (keys : keystore) (w : World)
    (dgrams : List (List Char)) : State :=
  dgrams.foldl (AR_Forward_iter_noinc cfg keys) (State.init w)

/-! ## Concurrent calls of `send_msg` -/

/-- One caller of `send_msg`: what its call finds outside, and its arguments. -/
structure Caller where
  ext : Extern
  agentid : Int
  msg : List Char

/-- The trace of one call of `send_msg` taken on its own: the entry event and
what the call does after it. -/
def callTrace (cfg : Config) (c : Caller) : List Event :=
  (send_msg cfg { ext := fun _ => c.ext, calls := 0, trace := [] } c.agentid c.msg).2.trace

/-- The events of caller `i` in a schedule, in the order of the schedule. A
schedule is a list of events, each with the number of the caller that
performs it. -/
def projection (i : Nat) (sched : List (Nat × Event)) : List Event :=
  (sched.filter (fun s => s.1 == i)).map Prod.snd

/-- The schedule is an interleaving of the calls: what each caller does in it
is an initial part of the trace of that caller's call, in the same order.
Callers may be stopped anywhere, for instance while they wait for the lock. -/
def interleaving (traces : Nat → List Event) (sched : List (Nat × Event)) : Bool :=
  sched.all (fun s => (projection s.1 sched).isPrefixOf (traces s.1))

/-- The mutex `sendmsg_mutex` after one event, given its holder before: a
call of `pthread_mutex_lock` that returns 0 makes the caller the holder, a
call of `pthread_mutex_unlock` that returns 0, by whichever caller, frees the
mutex, and nothing else changes it. -/
def mutexStep (h : Option Nat) (s : Nat × Event) : Option Nat :=
  match s.2 with
  | Event.pthread_mutex_lock r => if r = 0 then some s.1 else h
  | Event.pthread_mutex_unlock r => if r = 0 then none else h
  | _ => h

/-- The holder of the mutex after the events of a schedule. -/
def mutexAfter (h : Option Nat) (sched : List (Nat × Event)) : Option Nat :=
  sched.foldl mutexStep h

/-- The mutual exclusion that the mutex provides, as section 5 of the spec
describes it (acquiring the lock blocks the caller until the lock is free):
in the schedule a call of `pthread_mutex_lock` returns 0 only at a moment
when the mutex has no holder. -/
def granted : Option Nat → List (Nat × Event) → Bool
  | _, [] => true
  | h, s :: rest =>
    (match s.2 with
     | Event.pthread_mutex_lock r => r != 0 || h.isNone
     | _ => true) && granted (mutexStep h s) rest

/-- Caller `i` holds the lock after the events of the schedule, judged by its
own calls of `pthread_mutex_lock` and `pthread_mutex_unlock`. -/
def holdsLock (i : Nat) (sched : List (Nat × Event)) : Bool :=
  lockAfter false (projection i sched)

/-- The event is a datagram write. -/
def isWrite : Event → Bool
  | Event.sendto _ _ _ => true
  | _ => false

/-- The event is a call of `pthread_mutex_unlock`. -/
def isUnlock : Event → Bool
  | Event.pthread_mutex_unlock _ => true
  | _ => false

/-- Every datagram write and every call of `pthread_mutex_unlock` in the
events happens while the caller holds the lock. -/
def critLocked : Bool → List Event → Bool
  | _, [] => true
  | held, Event.sendto _ _ _ :: es => held && critLocked held es
  | held, Event.pthread_mutex_lock r :: es => critLocked (if r = 0 then true else held) es
  | held, Event.pthread_mutex_unlock r :: es =>
    held && critLocked (if r = 0 then false else held) es
  | held, _ :: es => critLocked held es

/-- A caller for whom every external call succeeds. -/
def okCaller : Caller := { ext := okExtern, agentid := 0, msg := sampleCommand }

/-- A schedule of two calls: caller 0 takes the lock while caller 1 is
between its encryption and its call of `pthread_mutex_lock`; caller 1 gets
the lock after caller 0 has released it. -/
def sampleSchedule : List (Nat × Event) :=
  [(0, Event.send_msg 0 sampleCommand), (1, Event.send_msg 0 sampleCommand),
   (0, Event.CreateSecMSG sampleCommand 0 32), (0, Event.pthread_mutex_lock 0),
   (1, Event.CreateSecMSG sampleCommand 0 32), (0, Event.sendto 0 32 0),
   (0, Event.pthread_mutex_unlock 0), (1, Event.pthread_mutex_lock 0),
   (1, Event.sendto 0 32 0), (1, Event.pthread_mutex_unlock 0)]

/-- A schedule in which caller 1 is given the lock while caller 0 holds it. -/
def overlappingSchedule : List (Nat × Event) :=
  [(0, Event.send_msg 0 sampleCommand), (1, Event.send_msg 0 sampleCommand),
   (0, Event.CreateSecMSG sampleCommand 0 32), (0, Event.pthread_mutex_lock 0),
   (1, Event.CreateSecMSG sampleCommand 0 32), (1, Event.pthread_mutex_lock 0),
   (0, Event.sendto 0 32 0), (1, Event.sendto 0 32 0),
   (0, Event.pthread_mutex_unlock 0), (1, Event.pthread_mutex_unlock 0)]

/-! ## Lemmas on traces -/

theorem sendCalls_append (xs ys : List Event) :
    sendCalls (xs ++ ys) = sendCalls xs ++ sendCalls ys := by
  induction xs with
  | nil => rfl
  | cons e es ih => cases e <;> simp [sendCalls, ih]

theorem sendCalls_of_inner (evs : List Event) (h : ∀ e ∈ evs, isInner e = true) :
    sendCalls evs = [] := by
  induction evs with
  | nil => rfl
  | cons e es ih =>
    have he := h e (List.mem_cons_self _ _)
    have hes : ∀ x ∈ es, isInner x = true := fun x hx => h x (List.mem_cons_of_mem _ hx)
    cases e <;> simp_all [sendCalls, isInner]

theorem not_lookup_of_inner (e : Event) (h : isInner e = true) : isLookup e = false := by
  cases e <;> simp_all [isInner, isLookup]

/-- Every call of `send_msg` appends its entry event followed by inner actions only. -/
theorem send_msg_trace (cfg : Config) (w : World) (a : Int) (m : List Char) :
    ∃ evs, (send_msg cfg w a m).2.trace = w.trace ++ Event.send_msg a m :: evs ∧
      ∀ e ∈ evs, isInner e = true := by
  unfold send_msg
  simp only [World.log]
  split_ifs <;>
    exact ⟨_, by (try simp only [List.append_assoc, List.singleton_append, List.cons_append,
            List.nil_append]); rfl, by simp [isInner]⟩

theorem mem_sendCalls (evs : List Event) (a : Int) (m : List Char) :
    (a, m) ∈ sendCalls evs ↔ Event.send_msg a m ∈ evs := by
  induction evs with
  | nil => simp [sendCalls]
  | cons e es ih => cases e <;> simp [sendCalls, ih]

/-- The broadcast loop calls `send_msg` once for each index of the list, in
order, whatever the calls return; it makes no lookup. -/
theorem foldl_send_msg_trace (cfg : Config) (m : List Char) (l : List Nat) (w : World) :
    ∃ evs, (l.foldl (fun w i => (send_msg cfg w (Int.ofNat i) m).2) w).trace = w.trace ++ evs ∧
      sendCalls evs = l.map (fun i => (Int.ofNat i, m)) ∧
      ∀ e ∈ evs, isLookup e = false := by
  induction l generalizing w with
  | nil => exact ⟨[], by simp, rfl, by simp⟩
  | cons i l ih =>
    obtain ⟨e1, h1, hin⟩ := send_msg_trace cfg w (Int.ofNat i) m
    obtain ⟨e2, h2, hc, hl⟩ := ih (send_msg cfg w (Int.ofNat i) m).2
    refine ⟨Event.send_msg (Int.ofNat i) m :: e1 ++ e2, ?_, ?_, ?_⟩
    · simp only [List.foldl_cons, h2, h1, List.append_assoc, List.cons_append]
    · show sendCalls (Event.send_msg (Int.ofNat i) m :: (e1 ++ e2)) = _
      simp only [sendCalls, sendCalls_append, sendCalls_of_inner e1 hin, hc,
        List.nil_append, List.map_cons]
    · intro e he
      simp only [List.cons_append, List.mem_cons, List.mem_append] at he
      rcases he with rfl | he | he
      · rfl
      · exact not_lookup_of_inner e (hin e he)
      · exact hl e he

theorem send_all_trace (cfg : Config) (keys : keystore) (w : World) (m : List Char) :
    ∃ evs, (send_all cfg keys w m).trace = w.trace ++ evs ∧
      sendCalls evs = (List.range keys.keysize.toNat).map (fun i => (Int.ofNat i, m)) ∧
      ∀ e ∈ evs, isLookup e = false :=
  foldl_send_msg_trace cfg m _ w

/-! ## Lemmas on the dispatch -/

theorem dispatch_all (cfg : Config) (keys : keystore) (w : World) (al : Nat)
    (loc id m : List Char) (h : al &&& cfg.ALL_AGENTS ≠ 0) :
    (dispatch cfg keys w al loc id m).1 = send_all cfg keys w m := by
  simp [dispatch, h]

theorem dispatch_remote (cfg : Config) (keys : keystore) (w : World) (al : Nat)
    (loc id m : List Char) (h1 : al &&& cfg.ALL_AGENTS = 0) (h2 : al &&& cfg.REMOTE_AGENT ≠ 0) :
    (dispatch cfg keys w al loc id m).1 =
      if keys.IsAllowedName loc < 0 then
        (w.log (Event.IsAllowedName loc (keys.IsAllowedName loc))).log (Event.merror_noagent loc)
      else
        (send_msg cfg (w.log (Event.IsAllowedName loc (keys.IsAllowedName loc)))
          (keys.IsAllowedName loc) m).2 := by
  simp only [dispatch, h1, h2, ne_eq, not_true_eq_false, not_false_eq_true, if_true, if_false]
  split_ifs <;> rfl

theorem dispatch_specific (cfg : Config) (keys : keystore) (w : World) (al : Nat)
    (loc id m : List Char) (h1 : al &&& cfg.ALL_AGENTS = 0) (h2 : al &&& cfg.REMOTE_AGENT = 0)
    (h3 : al &&& cfg.SPECIFIC_AGENT ≠ 0) :
    (dispatch cfg keys w al loc id m).1 =
      if keys.IsAllowedID id < 0 then
        (w.log (Event.IsAllowedID id (keys.IsAllowedID id))).log (Event.merror_noagent id)
      else
        (send_msg cfg (w.log (Event.IsAllowedID id (keys.IsAllowedID id)))
          (keys.IsAllowedID id) m).2 := by
  simp only [dispatch, h1, h2, h3, ne_eq, not_true_eq_false, not_false_eq_true, if_true, if_false]
  split_ifs <;> rfl

theorem dispatch_none (cfg : Config) (keys : keystore) (w : World) (al : Nat)
    (loc id m : List Char) (h1 : al &&& cfg.ALL_AGENTS = 0) (h2 : al &&& cfg.REMOTE_AGENT = 0)
    (h3 : al &&& cfg.SPECIFIC_AGENT = 0) :
    (dispatch cfg keys w al loc id m).1 = w := by
  simp [dispatch, h1, h2, h3]

/-- An iteration that accepts a directive does to the world what the dispatch
of that directive does. -/
theorem iter_world_of_directive (cfg : Config) (keys : keystore) (st : State)
    (dgram : List Char) (d : Directive) (h : directive cfg st.msg dgram = some d) :
    (AR_Forward_iter cfg keys st dgram).world =
      (dispatch cfg keys st.world d.ar_location d.location d.ar_agent_id (d.msg_to_send cfg)).1 := by
  unfold directive at h
  unfold AR_Forward_iter
  simp only at h ⊢
  split_ifs at h ⊢ with h0
  split at h
  · exact absurd h (by simp)
  · rename_i msg al p hp
    simp only [Option.some.injEq] at h
    subst h
    simp only [hp, Directive.msg_to_send]

/-- An iteration that accepts no directive adds at most the report of an invalid line. -/
theorem iter_world_of_none (cfg : Config) (keys : keystore) (st : State)
    (dgram : List Char) (h : directive cfg st.msg dgram = none) :
    (AR_Forward_iter cfg keys st dgram).world.trace = st.world.trace ∨
    ∃ m, (AR_Forward_iter cfg keys st dgram).world.trace =
      st.world.trace ++ [Event.merror_inv_msg m] := by
  unfold directive at h
  unfold AR_Forward_iter
  simp only at h ⊢
  split_ifs at h ⊢ with h0
  · exact Or.inl rfl
  · split at h
    · rename_i msg al hp
      right
      exact ⟨cstr msg 0, by simp only [hp, World.log]⟩
    · exact absurd h (by simp)

/-! ## Lemmas on the string primitives -/

theorem strchrAux_found (c : Char) (pre rest : List Char) (i : Nat)
    (h : ∀ x ∈ pre, x ≠ c ∧ x ≠ NUL) :
    strchrAux c (pre ++ c :: rest) i = some (i + pre.length) := by
  induction pre generalizing i with
  | nil => simp [strchrAux]
  | cons x xs ih =>
    have hx := h x (List.mem_cons_self _ _)
    have hxs : ∀ y ∈ xs, y ≠ c ∧ y ≠ NUL := fun y hy => h y (List.mem_cons_of_mem _ hy)
    rw [List.cons_append, strchrAux, if_neg hx.1, if_neg hx.2, ih (i + 1) hxs, List.length_cons]
    congr 1
    omega

theorem strchrAux_none (c : Char) (pre rest : List Char) (i : Nat) (hc : c ≠ NUL)
    (h : ∀ x ∈ pre, x ≠ c) :
    strchrAux c (pre ++ NUL :: rest) i = none := by
  induction pre generalizing i with
  | nil => simp [strchrAux, Ne.symm hc]
  | cons x xs ih =>
    have hx := h x (List.mem_cons_self _ _)
    have hxs : ∀ y ∈ xs, y ≠ c := fun y hy => h y (List.mem_cons_of_mem _ hy)
    rw [List.cons_append, strchrAux, if_neg hx]
    split_ifs
    · rfl
    · exact ih (i + 1) hxs

theorem strchr_append (A B : List Char) (c : Char) (n : Nat) (hn : n = A.length) :
    strchr (A ++ B) n c = strchrAux c B n := by
  subst hn
  simp [strchr]

theorem set_append_cons (A B : List Char) (x y : Char) (n : Nat) (hn : n = A.length) :
    (A ++ x :: B).set n y = A ++ y :: B := by
  subst hn
  induction A with
  | nil => rfl
  | cons a A ih => simp only [List.cons_append, List.length_cons, List.set_cons_succ, ih]

theorem getD_append_cons (A B : List Char) (x d : Char) (n : Nat) (hn : n = A.length) :
    (A ++ x :: B).getD n d = x := by
  subst hn
  induction A with
  | nil => rfl
  | cons a A ih => simpa using ih

theorem takeWhile_ne_NUL (S B : List Char) (hS : ∀ x ∈ S, x ≠ NUL) :
    (S ++ NUL :: B).takeWhile (fun x => x != NUL) = S := by
  induction S with
  | nil => simp [List.takeWhile]
  | cons a S ih =>
    have ha := hS a (List.mem_cons_self _ _)
    have hS2 : ∀ x ∈ S, x ≠ NUL := fun y hy => hS y (List.mem_cons_of_mem _ hy)
    rw [List.cons_append, List.takeWhile_cons, ih hS2]
    simp [ha]

theorem cstr_append (A S B : List Char) (n : Nat) (hn : n = A.length)
    (hS : ∀ x ∈ S, x ≠ NUL) :
    cstr (A ++ (S ++ NUL :: B)) n = S := by
  subst hn
  simp only [cstr, List.drop_left]
  exact takeWhile_ne_NUL S B hS

theorem parse_wellformed (cfg : Config) (name addr id payload tail : List Char)
    (c0 sep m0 m1 m2 : Char)
    (hc0 : c0 ≠ ')' ∧ c0 ≠ NUL)
    (hname : ∀ x ∈ name, x ≠ ')' ∧ x ≠ NUL)
    (haddr : ∀ x ∈ addr, x ≠ ' ' ∧ x ≠ NUL)
    (hm0 : m0 ≠ ' ' ∧ m0 ≠ NUL) (hm1 : m1 ≠ ' ' ∧ m1 ≠ NUL) (hm2 : m2 ≠ ' ' ∧ m2 ≠ NUL)
    (hid : ∀ x ∈ id, x ≠ ' ' ∧ x ≠ NUL)
    (hpay : ∀ x ∈ payload, x ≠ NUL) :
    ∃ msg p,
      parse cfg (c0 :: (name ++ ')' :: sep :: (addr ++ ' ' :: m0 :: m1 :: m2 :: ' ' ::
        (id ++ ' ' :: (payload ++ NUL :: tail))))) = (msg, modeBits cfg m0 m1 m2, some p) ∧
      cstr msg p.location = name ∧ cstr msg p.ar_agent_id = id ∧
      cstr msg p.tmp_str = payload := by
  generalize hR4 : payload ++ NUL :: tail = R4
  generalize hR3 : id ++ ' ' :: R4 = R3
  generalize hR2 : m0 :: m1 :: m2 :: ' ' :: R3 = R2
  -- first scan: the closing parenthesis
  have h1 : strchr (c0 :: (name ++ ')' :: sep :: (addr ++ ' ' :: R2))) 0 ')'
      = some (name.length + 1) := by
    have := strchrAux_found ')' (c0 :: name) (sep :: (addr ++ ' ' :: R2)) 0
        (by intro x hx; rcases List.mem_cons.1 hx with rfl | hx
            · exact hc0
            · exact hname x hx)
    simpa [strchr] using this
  have e1 : (c0 :: (name ++ ')' :: sep :: (addr ++ ' ' :: R2))).set (name.length + 1) NUL
      = c0 :: (name ++ NUL :: sep :: (addr ++ ' ' :: R2)) :=
    set_append_cons (c0 :: name) _ ')' NUL _ (by simp)
  -- second scan: the space that ends the source address
  have h2 : strchr (c0 :: (name ++ NUL :: sep :: (addr ++ ' ' :: R2))) (name.length + 1 + 2) ' '
      = some (name.length + 3 + addr.length) := by
    have e : c0 :: (name ++ NUL :: sep :: (addr ++ ' ' :: R2))
        = (c0 :: (name ++ [NUL, sep])) ++ (addr ++ ' ' :: R2) := by simp
    rw [e, strchr_append _ _ ' ' _ (by simp), strchrAux_found ' ' addr R2 _ haddr]
  -- the three mode bytes
  have eA3 : c0 :: (name ++ NUL :: sep :: (addr ++ ' ' :: R2))
      = (c0 :: (name ++ NUL :: sep :: (addr ++ [' ']))) ++ R2 := by simp
  have lA3 : (c0 :: (name ++ NUL :: sep :: (addr ++ [' ']))).length
      = name.length + 3 + addr.length + 1 := by simp; omega
  have g0 : (c0 :: (name ++ NUL :: sep :: (addr ++ ' ' :: R2))).getD
      (name.length + 3 + addr.length + 1) NUL = m0 := by
    rw [eA3, ← hR2]
    exact getD_append_cons _ _ _ _ _ lA3.symm
  have g1 : (c0 :: (name ++ NUL :: sep :: (addr ++ ' ' :: R2))).getD
      (name.length + 3 + addr.length + 1 + 1) NUL = m1 := by
    have e : c0 :: (name ++ NUL :: sep :: (addr ++ ' ' :: R2))
        = (c0 :: (name ++ NUL :: sep :: (addr ++ [' ', m0]))) ++ m1 :: m2 :: ' ' :: R3 := by
      simp [← hR2]
    rw [e]
    exact getD_append_cons _ _ _ _ _ (by simp; omega)
  have g2 : (c0 :: (name ++ NUL :: sep :: (addr ++ ' ' :: R2))).getD
      (name.length + 3 + addr.length + 1 + 1 + 1) NUL = m2 := by
    have e : c0 :: (name ++ NUL :: sep :: (addr ++ ' ' :: R2))
        = (c0 :: (name ++ NUL :: sep :: (addr ++ [' ', m0, m1]))) ++ m2 :: ' ' :: R3 := by
      simp [← hR2]
    rw [e]
    exact getD_append_cons _ _ _ _ _ (by simp; omega)
  -- third scan: the space that ends the mode code
  have h3 : strchr (c0 :: (name ++ NUL :: sep :: (addr ++ ' ' :: R2)))
      (name.length + 3 + addr.length + 1) ' ' = some (name.length + 3 + addr.length + 1 + 3) := by
    have e : R2 = [m0, m1, m2] ++ ' ' :: R3 := by simp [← hR2]
    rw [eA3, strchr_append _ _ ' ' _ lA3.symm, e,
      strchrAux_found ' ' [m0, m1, m2] R3 _ (by
        intro x hx
        simp only [List.mem_cons, List.mem_singleton, List.not_mem_nil, or_false] at hx
        rcases hx with rfl | rfl | rfl
        · exact hm0
        · exact hm1
        · exact hm2)]
    rfl
  have e3 : (c0 :: (name ++ NUL :: sep :: (addr ++ ' ' :: R2))).set
      (name.length + 3 + addr.length + 1 + 3) NUL
      = c0 :: (name ++ NUL :: sep :: (addr ++ ' ' :: m0 :: m1 :: m2 :: NUL :: R3)) := by
    have e : c0 :: (name ++ NUL :: sep :: (addr ++ ' ' :: R2))
        = (c0 :: (name ++ NUL :: sep :: (addr ++ [' ', m0, m1, m2]))) ++ ' ' :: R3 := by
      simp [← hR2]
    rw [e, set_append_cons _ _ _ _ _ (by simp; omega)]
    simp
  -- fourth scan: the space that ends the target peer id
  have eA4 : c0 :: (name ++ NUL :: sep :: (addr ++ ' ' :: m0 :: m1 :: m2 :: NUL :: R3))
      = (c0 :: (name ++ NUL :: sep :: (addr ++ [' ', m0, m1, m2, NUL]))) ++ R3 := by simp
  have lA4 : (c0 :: (name ++ NUL :: sep :: (addr ++ [' ', m0, m1, m2, NUL]))).length
      = name.length + 3 + addr.length + 1 + 3 + 1 := by simp; omega
  have h4 : strchr (c0 :: (name ++ NUL :: sep :: (addr ++ ' ' :: m0 :: m1 :: m2 :: NUL :: R3)))
      (name.length + 3 + addr.length + 1 + 3 + 1) ' '
      = some (name.length + 3 + addr.length + 1 + 3 + 1 + id.length) := by
    rw [eA4, strchr_append _ _ ' ' _ lA4.symm, ← hR3, strchrAux_found ' ' id R4 _ hid]
  have e4 : (c0 :: (name ++ NUL :: sep :: (addr ++ ' ' :: m0 :: m1 :: m2 :: NUL :: R3))).set
      (name.length + 3 + addr.length + 1 + 3 + 1 + id.length) NUL
      = c0 :: (name ++ NUL :: sep :: (addr ++ ' ' :: m0 :: m1 :: m2 :: NUL :: (id ++ NUL :: R4))) := by
    have e : c0 :: (name ++ NUL :: sep :: (addr ++ ' ' :: m0 :: m1 :: m2 :: NUL :: R3))
        = (c0 :: (name ++ NUL :: sep :: (addr ++ [' ', m0, m1, m2, NUL] ++ id))) ++ ' ' :: R4 := by
      simp [← hR3]
    rw [e, set_append_cons _ _ _ _ _ (by simp; omega)]
    simp
  refine ⟨c0 :: (name ++ NUL :: sep :: (addr ++ ' ' :: m0 :: m1 :: m2 :: NUL :: (id ++ NUL :: R4))),
    ⟨0 + 1, name.length + 3 + addr.length + 1 + 3 + 1,
      name.length + 3 + addr.length + 1 + 3 + 1 + id.length + 1⟩, ?_, ?_, ?_, ?_⟩
  · unfold parse
    simp only [h1, e1, h2, g0, g1, g2, h3, e3, h4, e4, modeBits]
  · exact cstr_append [c0] name _ _ rfl (fun x hx => (hname x hx).2)
  · have e : c0 :: (name ++ NUL :: sep :: (addr ++ ' ' :: m0 :: m1 :: m2 :: NUL :: (id ++ NUL :: R4)))
        = (c0 :: (name ++ NUL :: sep :: (addr ++ [' ', m0, m1, m2, NUL]))) ++ (id ++ NUL :: R4) := by
      simp
    rw [e]
    exact cstr_append _ id R4 _ lA4.symm (fun x hx => (hid x hx).2)
  · have e : c0 :: (name ++ NUL :: sep :: (addr ++ ' ' :: m0 :: m1 :: m2 :: NUL :: (id ++ NUL :: R4)))
        = (c0 :: (name ++ NUL :: sep :: (addr ++ [' ', m0, m1, m2, NUL] ++ id ++ [NUL])))
          ++ (payload ++ NUL :: tail) := by
      simp [← hR4]
    rw [e]
    exact cstr_append _ payload tail _ (by simp; omega) hpay

/-- With distinct flag bits, each bit of `ar_location` is set exactly when the
mode byte at its position is the sentinel of that position. -/
theorem modeBits_flags (cfg : Config) (hcfg : cfg.flagsDistinct) (m0 m1 m2 : Char) :
    (modeBits cfg m0 m1 m2 &&& cfg.ALL_AGENTS ≠ 0 ↔ m0 = cfg.ALL_AGENTS_C) ∧
    (modeBits cfg m0 m1 m2 &&& cfg.REMOTE_AGENT ≠ 0 ↔ m1 = cfg.REMOTE_AGENT_C) ∧
    (modeBits cfg m0 m1 m2 &&& cfg.SPECIFIC_AGENT ≠ 0 ↔ m2 = cfg.SPECIFIC_AGENT_C) := by
  obtain ⟨hA, hR, hS, hAR, hAS, hRS⟩ := hcfg
  have hRA : cfg.REMOTE_AGENT &&& cfg.ALL_AGENTS = 0 := by rw [Nat.and_comm]; exact hAR
  have hSA : cfg.SPECIFIC_AGENT &&& cfg.ALL_AGENTS = 0 := by rw [Nat.and_comm]; exact hAS
  have hSR : cfg.SPECIFIC_AGENT &&& cfg.REMOTE_AGENT = 0 := by rw [Nat.and_comm]; exact hRS
  unfold modeBits
  refine ⟨?_, ?_, ?_⟩ <;> split_ifs <;>
    simp [Nat.and_distrib_right, hA, hR, hS, hAR, hAS, hRS, hRA, hSA, hSR, *]

theorem OS_RecvUnix_fits (buf dgram : List Char) (h : dgram.length ≤ OS_SIZE_1024 - 1) :
    OS_RecvUnix OS_SIZE_1024 buf dgram = (dgram.length, dgram ++ NUL :: buf.drop (dgram.length + 1)) := by
  simp [OS_RecvUnix, List.take_of_length_le h]

/-- The two paths that resolve one peer (lines 150-157 and 165-173): after
the lookup `L` with result `r`, a negative result gives the report of an
unknown agent and nothing else; any other result gives one call of `send_msg`
with that result. -/
theorem resolve_trace (cfg : Config) (w : World) (L : Event) (s : List Char) (r : Int)
    (m : List Char) :
    ∃ evs, (if r < 0 then (w.log L).log (Event.merror_noagent s)
        else (send_msg cfg (w.log L) r m).2).trace = w.trace ++ L :: evs ∧
      (r < 0 → evs = [Event.merror_noagent s]) ∧
      (¬ r < 0 → ∃ inner, evs = Event.send_msg r m :: inner ∧ ∀ e ∈ inner, isInner e = true) := by
  by_cases hr : r < 0
  · exact ⟨[Event.merror_noagent s], by simp [hr, World.log], fun _ => rfl,
      fun h => absurd hr h⟩
  · obtain ⟨inner, ht, hin⟩ := send_msg_trace cfg (w.log L) r m
    refine ⟨Event.send_msg r m :: inner, ?_, fun h => absurd h hr, fun _ => ⟨inner, rfl, hin⟩⟩
    rw [if_neg hr, ht]
    simp only [World.log, List.append_assoc, List.singleton_append]

theorem strchr_zero_none (data rest : List Char) (h : ∀ x ∈ data, x ≠ ')') :
    strchr (data ++ NUL :: rest) 0 ')' = none := by
  have := strchrAux_none ')' data rest 0 (by decide) h
  simpa [strchr] using this

theorem parse_no_paren (cfg : Config) (msg : List Char) (h : strchr msg 0 ')' = none) :
    parse cfg msg = (msg, 0, none) := by
  simp [parse, h]

theorem rosterAddressed_append (keys : keystore) (xs ys : List Event)
    (hx : rosterAddressed keys xs) (hy : rosterAddressed keys ys) :
    rosterAddressed keys (xs ++ ys) := by
  intro a m hmem
  rcases List.mem_append.1 hmem with h | h
  · obtain ⟨h0, h1⟩ := hx a m h
    refine ⟨h0, ?_⟩
    rcases h1 with h1 | ⟨s, h1 | h1⟩
    · exact Or.inl h1
    · exact Or.inr ⟨s, Or.inl ⟨List.mem_append_left _ h1.1, h1.2⟩⟩
    · exact Or.inr ⟨s, Or.inr ⟨List.mem_append_left _ h1.1, h1.2⟩⟩
  · obtain ⟨h0, h1⟩ := hy a m h
    refine ⟨h0, ?_⟩
    rcases h1 with h1 | ⟨s, h1 | h1⟩
    · exact Or.inl h1
    · exact Or.inr ⟨s, Or.inl ⟨List.mem_append_right _ h1.1, h1.2⟩⟩
    · exact Or.inr ⟨s, Or.inr ⟨List.mem_append_right _ h1.1, h1.2⟩⟩

theorem not_send_of_inner (e : Event) (h : isInner e = true) (a : Int) (m : List Char) :
    e ≠ Event.send_msg a m := by
  rintro rfl
  simp [isInner] at h

/-- One iteration appends events whose calls of `send_msg` are all addressed
to roster entries. -/
theorem iter_rosterAddressed (cfg : Config) (keys : keystore) (st : State) (dgram : List Char) :
    ∃ evs, (AR_Forward_iter cfg keys st dgram).world.trace = st.world.trace ++ evs ∧
      rosterAddressed keys evs := by
  cases hd : directive cfg st.msg dgram with
  | none =>
    rcases iter_world_of_none cfg keys st dgram hd with h | ⟨m, h⟩
    · exact ⟨[], by simp [h], by intro a m hm; simp at hm⟩
    · exact ⟨_, h, by intro a m hm; simp at hm⟩
  | some d =>
    rw [iter_world_of_directive cfg keys st dgram d hd]
    by_cases hA : d.ar_location &&& cfg.ALL_AGENTS = 0
    · by_cases hR : d.ar_location &&& cfg.REMOTE_AGENT = 0
      · by_cases hS : d.ar_location &&& cfg.SPECIFIC_AGENT = 0
        · rw [dispatch_none _ _ _ _ _ _ _ hA hR hS]
          exact ⟨[], by simp, by intro a m hm; simp at hm⟩
        · rw [dispatch_specific _ _ _ _ _ _ _ hA hR hS]
          obtain ⟨evs, ht, hneg, hpos⟩ := resolve_trace cfg st.world
            (Event.IsAllowedID d.ar_agent_id (keys.IsAllowedID d.ar_agent_id)) d.ar_agent_id
            (keys.IsAllowedID d.ar_agent_id) (d.msg_to_send cfg)
          refine ⟨_, ht, ?_⟩
          intro a m hm
          by_cases hr : keys.IsAllowedID d.ar_agent_id < 0
          · rw [hneg hr] at hm; simp at hm
          · obtain ⟨inner, he, hin⟩ := hpos hr
            rw [he] at hm ⊢
            have ha : a = keys.IsAllowedID d.ar_agent_id := by
              rcases List.mem_cons.1 hm with hm | hm
              · exact Event.noConfusion hm
              · rcases List.mem_cons.1 hm with hm | hm
                · injection hm with h1 h2
                · exact absurd rfl (not_send_of_inner _ (hin _ hm) a m)
            subst ha
            exact ⟨by omega, Or.inr ⟨d.ar_agent_id, Or.inr ⟨List.mem_cons_self _ _, rfl⟩⟩⟩
      · rw [dispatch_remote _ _ _ _ _ _ _ hA hR]
        obtain ⟨evs, ht, hneg, hpos⟩ := resolve_trace cfg st.world
          (Event.IsAllowedName d.location (keys.IsAllowedName d.location)) d.location
          (keys.IsAllowedName d.location) (d.msg_to_send cfg)
        refine ⟨_, ht, ?_⟩
        intro a m hm
        by_cases hr : keys.IsAllowedName d.location < 0
        · rw [hneg hr] at hm; simp at hm
        · obtain ⟨inner, he, hin⟩ := hpos hr
          rw [he] at hm ⊢
          have ha : a = keys.IsAllowedName d.location := by
            rcases List.mem_cons.1 hm with hm | hm
            · exact Event.noConfusion hm
            · rcases List.mem_cons.1 hm with hm | hm
              · injection hm with h1 h2
              · exact absurd rfl (not_send_of_inner _ (hin _ hm) a m)
          subst ha
          exact ⟨by omega, Or.inr ⟨d.location, Or.inl ⟨List.mem_cons_self _ _, rfl⟩⟩⟩
    · rw [dispatch_all _ _ _ _ _ _ _ hA]
      obtain ⟨evs, ht, hc, _⟩ := send_all_trace cfg keys st.world (d.msg_to_send cfg)
      refine ⟨evs, ht, ?_⟩
      intro a m hm
      rw [← mem_sendCalls, hc] at hm
      obtain ⟨i, hi, he⟩ := List.mem_map.1 hm
      simp only [Prod.mk.injEq] at he
      have hi2 := List.mem_range.1 hi
      obtain ⟨rfl, -⟩ := he
      refine ⟨Int.ofNat_nonneg i, Or.inl ?_⟩
      have : (Int.ofNat i) = (i : Int) := rfl
      omega

/-- Over any run of the daemon loop the calls of `send_msg` are all addressed
to roster entries. -/
theorem run_rosterAddressed (cfg : Config) (keys : keystore) (dgrams : List (List Char))
    (st : State) :
    ∃ evs, (dgrams.foldl (AR_Forward_iter cfg keys) st).world.trace = st.world.trace ++ evs ∧
      rosterAddressed keys evs := by
  induction dgrams generalizing st with
  | nil => exact ⟨[], by simp, by intro a m hm; simp at hm⟩
  | cons dg rest ih =>
    obtain ⟨e1, h1, p1⟩ := iter_rosterAddressed cfg keys st dg
    obtain ⟨e2, h2, p2⟩ := ih (AR_Forward_iter cfg keys st dg)
    exact ⟨e1 ++ e2, by rw [List.foldl_cons, h2, h1, List.append_assoc],
      rosterAddressed_append keys e1 e2 p1 p2⟩

theorem strchrAux_some_split (c : Char) (hc : c ≠ NUL) (xs t : List Char) (i j : Nat)
    (h : strchrAux c (xs ++ NUL :: t) i = some j) :
    ∃ a b, xs = a ++ c :: b ∧ j = i + a.length := by
  induction xs generalizing i with
  | nil =>
    rw [List.nil_append, strchrAux, if_neg (Ne.symm hc), if_pos rfl] at h
    exact absurd h (by simp)
  | cons x xs ih =>
    rw [List.cons_append, strchrAux] at h
    by_cases hx : x = c
    · rw [if_pos hx] at h
      exact ⟨[], xs, by simp [hx], by simpa using (Option.some.inj h).symm⟩
    · rw [if_neg hx] at h
      by_cases hn : x = NUL
      · rw [if_pos hn] at h
        exact absurd h (by simp)
      · rw [if_neg hn] at h
        obtain ⟨a, b, he, hj⟩ := ih (i + 1) h
        exact ⟨x :: a, b, by simp [he], by simp [hj]; omega⟩

theorem strchrAux_first (c : Char) (pre post : List Char) (i j : Nat)
    (hpre : ∀ x ∈ pre, x ≠ c) (h : strchrAux c (pre ++ c :: post) i = some j) :
    j = i + pre.length := by
  induction pre generalizing i with
  | nil =>
    rw [List.nil_append, strchrAux, if_pos rfl] at h
    simpa using (Option.some.inj h).symm
  | cons x xs ih =>
    have hx := hpre x (List.mem_cons_self _ _)
    rw [List.cons_append, strchrAux, if_neg hx] at h
    by_cases hn : x = NUL
    · rw [if_pos hn] at h
      exact absurd h (by simp)
    · rw [if_neg hn] at h
      have := ih (i + 1) (fun y hy => hpre y (List.mem_cons_of_mem _ hy)) h
      simp only [List.length_cons]
      omega

/-- A line with at least one byte after its first closing parenthesis is
accepted only if at least three spaces follow that byte, whatever comes after
the terminator of the line in the buffer. -/
theorem parse_needs_three_spaces (cfg : Config) (pre rest tail : List Char) (c : Char)
    (hpre : ∀ x ∈ pre, x ≠ ')') (hcount : rest.count ' ' < 3) :
    (parse cfg (pre ++ ')' :: c :: (rest ++ NUL :: tail))).2.2 = none := by
  unfold parse
  simp only
  split
  · rfl
  · rename_i p h1
    have hp : p = pre.length := by
      have := strchrAux_first ')' pre (c :: (rest ++ NUL :: tail)) 0 p hpre
        (by simpa [strchr] using h1)
      omega
    subst hp
    rw [set_append_cons pre _ ')' NUL _ rfl]
    have e2 : pre ++ NUL :: c :: (rest ++ NUL :: tail)
        = (pre ++ [NUL, c]) ++ (rest ++ NUL :: tail) := by simp
    split
    · rfl
    · rename_i q h2
      rw [e2, strchr_append _ _ ' ' _ (by simp)] at h2
      obtain ⟨a, b, hr, hq⟩ := strchrAux_some_split ' ' (by decide) rest tail _ q h2
      subst hr hq
      have e3 : pre ++ NUL :: c :: (a ++ ' ' :: b ++ NUL :: tail)
          = (pre ++ NUL :: c :: (a ++ [' '])) ++ (b ++ NUL :: tail) := by simp
      split
      · rfl
      · rename_i r h3
        rw [e3, strchr_append _ _ ' ' _ (by simp; omega)] at h3
        obtain ⟨a2, b2, hb, hr⟩ := strchrAux_some_split ' ' (by decide) b tail _ r h3
        subst hb hr
        have e4 : pre ++ NUL :: c :: (a ++ ' ' :: (a2 ++ ' ' :: b2) ++ NUL :: tail)
            = (pre ++ NUL :: c :: (a ++ ' ' :: a2)) ++ ' ' :: (b2 ++ NUL :: tail) := by simp
        rw [e4, set_append_cons _ _ ' ' NUL _ (by simp; omega)]
        have e5 : (pre ++ NUL :: c :: (a ++ ' ' :: a2)) ++ NUL :: (b2 ++ NUL :: tail)
            = (pre ++ NUL :: c :: (a ++ ' ' :: (a2 ++ [NUL]))) ++ (b2 ++ NUL :: tail) := by simp
        split
        · rfl
        · rename_i s h4
          rw [e5, strchr_append _ _ ' ' _ (by simp; omega)] at h4
          obtain ⟨a3, b3, hb2, -⟩ := strchrAux_some_split ' ' (by decide) b2 tail _ s h4
          subst hb2
          exfalso
          simp [List.count_append, List.count_cons] at hcount
          omega

/-- Where the code does check the delimiters: a line that has at least one
byte after its first closing parenthesis and fewer than three spaces after
that byte is rejected, whatever the buffer held before, and the report of the
invalid line is the only action. -/
theorem lacking_delimiter_rejected (cfg : Config) (keys : keystore) (st : State)
    (pre rest : List Char) (c : Char)
    (hpre : ∀ x ∈ pre, x ≠ ')') (hcount : rest.count ' ' < 3)
    (hfit : (pre ++ ')' :: c :: rest).length ≤ OS_SIZE_1024 - 1) :
    directive cfg st.msg (pre ++ ')' :: c :: rest) = none ∧
    ∃ m, (AR_Forward_iter cfg keys st (pre ++ ')' :: c :: rest)).world.trace
      = st.world.trace ++ [Event.merror_inv_msg m] := by
  have hne : (pre ++ ')' :: c :: rest).length ≠ 0 := by simp
  have hbuf : (pre ++ ')' :: c :: rest) ++ NUL :: st.msg.drop ((pre ++ ')' :: c :: rest).length + 1)
      = pre ++ ')' :: c :: (rest ++ NUL :: st.msg.drop ((pre ++ ')' :: c :: rest).length + 1)) := by
    simp
  have hp := parse_needs_three_spaces cfg pre rest
    (st.msg.drop ((pre ++ ')' :: c :: rest).length + 1)) c hpre hcount
  rw [← hbuf] at hp
  rcases hparse : parse cfg ((pre ++ ')' :: c :: rest) ++
      NUL :: st.msg.drop ((pre ++ ')' :: c :: rest).length + 1)) with ⟨m, al, o⟩
  rw [hparse] at hp
  simp only at hp
  subst hp
  constructor
  · unfold directive
    simp only [OS_RecvUnix_fits st.msg _ hfit, hne, if_false, hparse]
  · unfold AR_Forward_iter
    simp only [OS_RecvUnix_fits st.msg _ hfit, hne, if_false, hparse, World.log]
    exact ⟨_, rfl⟩

/-! ## Lemmas on `send_msg` inside the broadcast loop -/

theorem send_msg_ext_calls (cfg : Config) (w : World) (a : Int) (m : List Char) :
    (send_msg cfg w a m).2.ext = w.ext ∧ (send_msg cfg w a m).2.calls = w.calls + 1 := by
  unfold send_msg
  simp only [World.log]
  split_ifs <;> exact ⟨rfl, rfl⟩

theorem foldl_send_msg_ext_calls (cfg : Config) (m : List Char) (l : List Nat) (w : World) :
    (l.foldl (fun w i => (send_msg cfg w (Int.ofNat i) m).2) w).ext = w.ext ∧
    (l.foldl (fun w i => (send_msg cfg w (Int.ofNat i) m).2) w).calls = w.calls + l.length := by
  induction l generalizing w with
  | nil => exact ⟨rfl, rfl⟩
  | cons i l ih =>
    obtain ⟨h1, h2⟩ := send_msg_ext_calls cfg w (Int.ofNat i) m
    obtain ⟨h3, h4⟩ := ih (send_msg cfg w (Int.ofNat i) m).2
    refine ⟨by rw [List.foldl_cons, h3, h1], ?_⟩
    rw [List.foldl_cons, h4, h2, List.length_cons]
    omega

/-- What a call of `send_msg` does when the peer is live and the encryption
returns a zero-length result. -/
theorem send_msg_enc_fail (cfg : Config) (w : World) (a : Int) (m : List Char)
    (hlive : ¬ (w.ext w.calls).rcvd a < (w.ext w.calls).time - 2 * cfg.NOTIFY_TIME)
    (henc : (w.ext w.calls).CreateSecMSG m a = 0) :
    (send_msg cfg w a m).1 = -1 ∧
    (send_msg cfg w a m).2.trace =
      w.trace ++ [Event.send_msg a m, Event.CreateSecMSG m a 0, Event.merror_sec] := by
  simp [send_msg, hlive, henc, World.log]

theorem range_split (n k : Nat) (hk : k < n) :
    List.range n = List.range k ++ k :: List.range' (k + 1) (n - (k + 1)) := by
  have h1 : n - k = (n - (k + 1)) + 1 := by omega
  have h2 := List.range'_append_1 0 k (n - k)
  rw [Nat.zero_add, h1, List.range'_succ, ← h1] at h2
  rw [List.range_eq_range', List.range_eq_range', h2]
  congr 1
  omega

/-- The result of `send_msg` is 0 exactly when the peer is live, the
encryption gives a non-zero length, and the lock is acquired and released;
the result of `sendto` plays no part. -/
theorem send_msg_result (cfg : Config) (w : World) (a : Int) (m : List Char) :
    ((send_msg cfg w a m).1 = 0 ↔
      ¬ (w.ext w.calls).rcvd a < (w.ext w.calls).time - 2 * cfg.NOTIFY_TIME ∧
      (w.ext w.calls).CreateSecMSG m a ≠ 0 ∧ (w.ext w.calls).pthread_mutex_lock = 0 ∧
      (w.ext w.calls).pthread_mutex_unlock = 0) ∧
    ((send_msg cfg w a m).1 = 0 ∨ (send_msg cfg w a m).1 = -1) := by
  unfold send_msg
  simp only [World.log]
  split_ifs <;> simp_all

/-- Every call of `send_msg` made by an iteration that accepts a directive
carries the formatted command of that directive. -/
theorem iter_calls_message (cfg : Config) (keys : keystore) (st : State)
    (dgram : List Char) (d : Directive) (h : directive cfg st.msg dgram = some d) :
    ∃ evs, (AR_Forward_iter cfg keys st dgram).world.trace = st.world.trace ++ evs ∧
      ∀ c ∈ sendCalls evs, c.2 = d.msg_to_send cfg := by
  rw [iter_world_of_directive cfg keys st dgram d h]
  by_cases hA : d.ar_location &&& cfg.ALL_AGENTS = 0
  · by_cases hR : d.ar_location &&& cfg.REMOTE_AGENT = 0
    · by_cases hS : d.ar_location &&& cfg.SPECIFIC_AGENT = 0
      · rw [dispatch_none _ _ _ _ _ _ _ hA hR hS]
        exact ⟨[], by simp, by simp [sendCalls]⟩
      · rw [dispatch_specific _ _ _ _ _ _ _ hA hR hS]
        obtain ⟨evs, ht, hneg, hpos⟩ := resolve_trace cfg st.world
          (Event.IsAllowedID d.ar_agent_id (keys.IsAllowedID d.ar_agent_id)) d.ar_agent_id
          (keys.IsAllowedID d.ar_agent_id) (d.msg_to_send cfg)
        refine ⟨_, ht, ?_⟩
        by_cases hr : keys.IsAllowedID d.ar_agent_id < 0
        · rw [hneg hr]; simp [sendCalls]
        · obtain ⟨inner, he, hin⟩ := hpos hr
          rw [he]
          simp [sendCalls, sendCalls_of_inner inner hin]
    · rw [dispatch_remote _ _ _ _ _ _ _ hA hR]
      obtain ⟨evs, ht, hneg, hpos⟩ := resolve_trace cfg st.world
        (Event.IsAllowedName d.location (keys.IsAllowedName d.location)) d.location
        (keys.IsAllowedName d.location) (d.msg_to_send cfg)
      refine ⟨_, ht, ?_⟩
      by_cases hr : keys.IsAllowedName d.location < 0
      · rw [hneg hr]; simp [sendCalls]
      · obtain ⟨inner, he, hin⟩ := hpos hr
        rw [he]
        simp [sendCalls, sendCalls_of_inner inner hin]
  · rw [dispatch_all _ _ _ _ _ _ _ hA]
    obtain ⟨evs, ht, hc, -⟩ := send_all_trace cfg keys st.world (d.msg_to_send cfg)
    refine ⟨evs, ht, ?_⟩
    rw [hc]
    intro c hc2
    obtain ⟨i, -, rfl⟩ := List.mem_map.1 hc2
    rfl

/-! ## The scan of a delimited line with a mode field of any length -/

theorem getD_append_add (A R : List Char) (d : Char) (n k : Nat) (hn : n = A.length) :
    (A ++ R).getD (n + k) d = R.getD k d := by
  subst hn
  induction A with
  | nil => simp
  | cons a A ih =>
    have : (a :: A).length + k = (A.length + k) + 1 := by simp; omega
    rw [List.cons_append, this, List.getD_cons_succ]
    exact ih

/-- The scan of a line with all its delimiters, for a mode field of any
length: the three mode bytes are the first three bytes that follow the
space ending the source address, wherever the mode field ends. -/
theorem parse_fields (cfg : Config) (name addr mode id payload tail : List Char)
    (c0 sep : Char)
    (hc0 : c0 ≠ ')' ∧ c0 ≠ NUL)
    (hname : ∀ x ∈ name, x ≠ ')' ∧ x ≠ NUL)
    (haddr : ∀ x ∈ addr, x ≠ ' ' ∧ x ≠ NUL)
    (hmode : ∀ x ∈ mode, x ≠ ' ' ∧ x ≠ NUL)
    (hid : ∀ x ∈ id, x ≠ ' ' ∧ x ≠ NUL)
    (hpay : ∀ x ∈ payload, x ≠ NUL) :
    ∃ msg p,
      parse cfg (c0 :: (name ++ ')' :: sep :: (addr ++ ' ' :: (mode ++ ' ' ::
        (id ++ ' ' :: (payload ++ NUL :: tail)))))) =
        (msg,
         modeBits cfg
          ((mode ++ ' ' :: (id ++ ' ' :: (payload ++ NUL :: tail))).getD 0 NUL)
          ((mode ++ ' ' :: (id ++ ' ' :: (payload ++ NUL :: tail))).getD 1 NUL)
          ((mode ++ ' ' :: (id ++ ' ' :: (payload ++ NUL :: tail))).getD 2 NUL),
         some p) ∧
      cstr msg p.location = name ∧ cstr msg p.ar_agent_id = id ∧
      cstr msg p.tmp_str = payload := by
  generalize hR4 : payload ++ NUL :: tail = R4
  generalize hR3 : id ++ ' ' :: R4 = R3
  generalize hR2 : mode ++ ' ' :: R3 = R2
  -- first scan: the closing parenthesis
  have h1 : strchr (c0 :: (name ++ ')' :: sep :: (addr ++ ' ' :: R2))) 0 ')'
      = some (name.length + 1) := by
    have := strchrAux_found ')' (c0 :: name) (sep :: (addr ++ ' ' :: R2)) 0
        (by intro x hx; rcases List.mem_cons.1 hx with rfl | hx
            · exact hc0
            · exact hname x hx)
    simpa [strchr] using this
  have e1 : (c0 :: (name ++ ')' :: sep :: (addr ++ ' ' :: R2))).set (name.length + 1) NUL
      = c0 :: (name ++ NUL :: sep :: (addr ++ ' ' :: R2)) :=
    set_append_cons (c0 :: name) _ ')' NUL _ (by simp)
  -- second scan: the space that ends the source address
  have h2 : strchr (c0 :: (name ++ NUL :: sep :: (addr ++ ' ' :: R2))) (name.length + 1 + 2) ' '
      = some (name.length + 3 + addr.length) := by
    have e : c0 :: (name ++ NUL :: sep :: (addr ++ ' ' :: R2))
        = (c0 :: (name ++ [NUL, sep])) ++ (addr ++ ' ' :: R2) := by simp
    rw [e, strchr_append _ _ ' ' _ (by simp), strchrAux_found ' ' addr R2 _ haddr]
  -- the three mode bytes
  have eA3 : c0 :: (name ++ NUL :: sep :: (addr ++ ' ' :: R2))
      = (c0 :: (name ++ NUL :: sep :: (addr ++ [' ']))) ++ R2 := by simp
  have lA3 : (c0 :: (name ++ NUL :: sep :: (addr ++ [' ']))).length
      = name.length + 3 + addr.length + 1 := by simp; omega
  have g0 : (c0 :: (name ++ NUL :: sep :: (addr ++ ' ' :: R2))).getD
      (name.length + 3 + addr.length + 1) NUL = R2.getD 0 NUL := by
    rw [eA3]
    exact getD_append_add _ R2 NUL _ 0 lA3.symm
  have g1 : (c0 :: (name ++ NUL :: sep :: (addr ++ ' ' :: R2))).getD
      (name.length + 3 + addr.length + 1 + 1) NUL = R2.getD 1 NUL := by
    rw [eA3]
    exact getD_append_add _ R2 NUL _ 1 lA3.symm
  have g2 : (c0 :: (name ++ NUL :: sep :: (addr ++ ' ' :: R2))).getD
      (name.length + 3 + addr.length + 1 + 1 + 1) NUL = R2.getD 2 NUL := by
    rw [eA3]
    exact getD_append_add _ R2 NUL _ 2 lA3.symm
  -- third scan: the space that ends the mode code
  have h3 : strchr (c0 :: (name ++ NUL :: sep :: (addr ++ ' ' :: R2)))
      (name.length + 3 + addr.length + 1) ' '
      = some (name.length + 3 + addr.length + 1 + mode.length) := by
    rw [eA3, strchr_append _ _ ' ' _ lA3.symm, ← hR2, strchrAux_found ' ' mode R3 _ hmode]
  have e3 : (c0 :: (name ++ NUL :: sep :: (addr ++ ' ' :: R2))).set
      (name.length + 3 + addr.length + 1 + mode.length) NUL
      = c0 :: (name ++ NUL :: sep :: (addr ++ ' ' :: (mode ++ NUL :: R3))) := by
    have e : c0 :: (name ++ NUL :: sep :: (addr ++ ' ' :: R2))
        = (c0 :: (name ++ NUL :: sep :: (addr ++ ' ' :: mode))) ++ ' ' :: R3 := by
      simp [← hR2]
    rw [e, set_append_cons _ _ _ _ _ (by simp; omega)]
    simp
  -- fourth scan: the space that ends the target peer id
  have eA4 : c0 :: (name ++ NUL :: sep :: (addr ++ ' ' :: (mode ++ NUL :: R3)))
      = (c0 :: (name ++ NUL :: sep :: (addr ++ ' ' :: (mode ++ [NUL])))) ++ R3 := by simp
  have lA4 : (c0 :: (name ++ NUL :: sep :: (addr ++ ' ' :: (mode ++ [NUL])))).length
      = name.length + 3 + addr.length + 1 + mode.length + 1 := by simp; omega
  have h4 : strchr (c0 :: (name ++ NUL :: sep :: (addr ++ ' ' :: (mode ++ NUL :: R3))))
      (name.length + 3 + addr.length + 1 + mode.length + 1) ' '
      = some (name.length + 3 + addr.length + 1 + mode.length + 1 + id.length) := by
    rw [eA4, strchr_append _ _ ' ' _ lA4.symm, ← hR3, strchrAux_found ' ' id R4 _ hid]
  have e4 : (c0 :: (name ++ NUL :: sep :: (addr ++ ' ' :: (mode ++ NUL :: R3)))).set
      (name.length + 3 + addr.length + 1 + mode.length + 1 + id.length) NUL
      = c0 :: (name ++ NUL :: sep :: (addr ++ ' ' :: (mode ++ NUL :: (id ++ NUL :: R4)))) := by
    have e : c0 :: (name ++ NUL :: sep :: (addr ++ ' ' :: (mode ++ NUL :: R3)))
        = (c0 :: (name ++ NUL :: sep :: (addr ++ ' ' :: (mode ++ NUL :: id)))) ++ ' ' :: R4 := by
      simp [← hR3]
    rw [e, set_append_cons _ _ _ _ _ (by simp; omega)]
    simp
  refine ⟨c0 :: (name ++ NUL :: sep :: (addr ++ ' ' :: (mode ++ NUL :: (id ++ NUL :: R4)))),
    ⟨0 + 1, name.length + 3 + addr.length + 1 + mode.length + 1,
      name.length + 3 + addr.length + 1 + mode.length + 1 + id.length + 1⟩, ?_, ?_, ?_, ?_⟩
  · unfold parse
    simp only [h1, e1, h2, g0, g1, g2, h3, e3, h4, e4, modeBits]
  · exact cstr_append [c0] name _ _ rfl (fun x hx => (hname x hx).2)
  · have e : c0 :: (name ++ NUL :: sep :: (addr ++ ' ' :: (mode ++ NUL :: (id ++ NUL :: R4))))
        = (c0 :: (name ++ NUL :: sep :: (addr ++ ' ' :: (mode ++ [NUL])))) ++ (id ++ NUL :: R4) := by
      simp
    rw [e]
    exact cstr_append _ id R4 _ lA4.symm (fun x hx => (hid x hx).2)
  · have e : c0 :: (name ++ NUL :: sep :: (addr ++ ' ' :: (mode ++ NUL :: (id ++ NUL :: R4))))
        = (c0 :: (name ++ NUL :: sep :: (addr ++ ' ' :: (mode ++ NUL :: (id ++ [NUL])))))
          ++ (payload ++ NUL :: tail) := by
      simp [← hR4]
    rw [e]
    exact cstr_append _ payload tail _ (by simp; omega) hpay

/-! ## The scan of any buffer that has the four delimiters -/

/-- The scan of a buffer in which a closing parenthesis, one more byte and
three spaces follow each other as the code expects: the result in full. The
bytes before the parenthesis, the skipped byte `sep` and the bytes `R4` after
the third space are arbitrary. -/
theorem parse_delimited (cfg : Config) (pre addr mode id R4 : List Char) (sep : Char)
    (hpre : ∀ x ∈ pre, x ≠ ')' ∧ x ≠ NUL)
    (haddr : ∀ x ∈ addr, x ≠ ' ' ∧ x ≠ NUL)
    (hmode : ∀ x ∈ mode, x ≠ ' ' ∧ x ≠ NUL)
    (hid : ∀ x ∈ id, x ≠ ' ' ∧ x ≠ NUL) :
    parse cfg (pre ++ ')' :: sep :: (addr ++ ' ' :: (mode ++ ' ' :: (id ++ ' ' :: R4)))) =
      (pre ++ NUL :: sep :: (addr ++ ' ' :: (mode ++ NUL :: (id ++ NUL :: R4))),
       modeBits cfg
        ((mode ++ ' ' :: (id ++ ' ' :: R4)).getD 0 NUL)
        ((mode ++ ' ' :: (id ++ ' ' :: R4)).getD 1 NUL)
        ((mode ++ ' ' :: (id ++ ' ' :: R4)).getD 2 NUL),
       some ⟨0 + 1, pre.length + 2 + addr.length + 1 + mode.length + 1,
         pre.length + 2 + addr.length + 1 + mode.length + 1 + id.length + 1⟩) := by
  generalize hR3 : id ++ ' ' :: R4 = R3
  generalize hR2 : mode ++ ' ' :: R3 = R2
  have h1 : strchr (pre ++ ')' :: sep :: (addr ++ ' ' :: R2)) 0 ')' = some pre.length := by
    have := strchrAux_found ')' pre (sep :: (addr ++ ' ' :: R2)) 0 hpre
    simpa [strchr] using this
  have e1 : (pre ++ ')' :: sep :: (addr ++ ' ' :: R2)).set pre.length NUL
      = pre ++ NUL :: sep :: (addr ++ ' ' :: R2) :=
    set_append_cons pre _ ')' NUL _ rfl
  have h2 : strchr (pre ++ NUL :: sep :: (addr ++ ' ' :: R2)) (pre.length + 2) ' '
      = some (pre.length + 2 + addr.length) := by
    have e : pre ++ NUL :: sep :: (addr ++ ' ' :: R2)
        = (pre ++ [NUL, sep]) ++ (addr ++ ' ' :: R2) := by simp
    rw [e, strchr_append _ _ ' ' _ (by simp), strchrAux_found ' ' addr R2 _ haddr]
  have eA3 : pre ++ NUL :: sep :: (addr ++ ' ' :: R2)
      = (pre ++ NUL :: sep :: (addr ++ [' '])) ++ R2 := by simp
  have lA3 : (pre ++ NUL :: sep :: (addr ++ [' '])).length
      = pre.length + 2 + addr.length + 1 := by simp; omega
  have g0 : (pre ++ NUL :: sep :: (addr ++ ' ' :: R2)).getD
      (pre.length + 2 + addr.length + 1) NUL = R2.getD 0 NUL := by
    rw [eA3]
    exact getD_append_add _ R2 NUL _ 0 lA3.symm
  have g1 : (pre ++ NUL :: sep :: (addr ++ ' ' :: R2)).getD
      (pre.length + 2 + addr.length + 1 + 1) NUL = R2.getD 1 NUL := by
    rw [eA3]
    exact getD_append_add _ R2 NUL _ 1 lA3.symm
  have g2 : (pre ++ NUL :: sep :: (addr ++ ' ' :: R2)).getD
      (pre.length + 2 + addr.length + 1 + 1 + 1) NUL = R2.getD 2 NUL := by
    rw [eA3]
    exact getD_append_add _ R2 NUL _ 2 lA3.symm
  have h3 : strchr (pre ++ NUL :: sep :: (addr ++ ' ' :: R2))
      (pre.length + 2 + addr.length + 1) ' '
      = some (pre.length + 2 + addr.length + 1 + mode.length) := by
    rw [eA3, strchr_append _ _ ' ' _ lA3.symm, ← hR2, strchrAux_found ' ' mode R3 _ hmode]
  have e3 : (pre ++ NUL :: sep :: (addr ++ ' ' :: R2)).set
      (pre.length + 2 + addr.length + 1 + mode.length) NUL
      = pre ++ NUL :: sep :: (addr ++ ' ' :: (mode ++ NUL :: R3)) := by
    have e : pre ++ NUL :: sep :: (addr ++ ' ' :: R2)
        = (pre ++ NUL :: sep :: (addr ++ ' ' :: mode)) ++ ' ' :: R3 := by
      simp [← hR2]
    rw [e, set_append_cons _ _ _ _ _ (by simp; omega)]
    simp
  have eA4 : pre ++ NUL :: sep :: (addr ++ ' ' :: (mode ++ NUL :: R3))
      = (pre ++ NUL :: sep :: (addr ++ ' ' :: (mode ++ [NUL]))) ++ R3 := by simp
  have lA4 : (pre ++ NUL :: sep :: (addr ++ ' ' :: (mode ++ [NUL]))).length
      = pre.length + 2 + addr.length + 1 + mode.length + 1 := by simp; omega
  have h4 : strchr (pre ++ NUL :: sep :: (addr ++ ' ' :: (mode ++ NUL :: R3)))
      (pre.length + 2 + addr.length + 1 + mode.length + 1) ' '
      = some (pre.length + 2 + addr.length + 1 + mode.length + 1 + id.length) := by
    rw [eA4, strchr_append _ _ ' ' _ lA4.symm, ← hR3, strchrAux_found ' ' id R4 _ hid]
  have e4 : (pre ++ NUL :: sep :: (addr ++ ' ' :: (mode ++ NUL :: R3))).set
      (pre.length + 2 + addr.length + 1 + mode.length + 1 + id.length) NUL
      = pre ++ NUL :: sep :: (addr ++ ' ' :: (mode ++ NUL :: (id ++ NUL :: R4))) := by
    have e : pre ++ NUL :: sep :: (addr ++ ' ' :: (mode ++ NUL :: R3))
        = (pre ++ NUL :: sep :: (addr ++ ' ' :: (mode ++ NUL :: id))) ++ ' ' :: R4 := by
      simp [← hR3]
    rw [e, set_append_cons _ _ _ _ _ (by simp; omega)]
    simp
  unfold parse
  simp only [h1, e1, h2, g0, g1, g2, h3, e3, h4, e4, modeBits]

theorem strchrAux_split (c : Char) (l : List Char) (i j : Nat)
    (h : strchrAux c l i = some j) :
    ∃ a b, l = a ++ c :: b ∧ j = i + a.length ∧ ∀ x ∈ a, x ≠ c ∧ x ≠ NUL := by
  induction l generalizing i with
  | nil => exact absurd h (by simp [strchrAux])
  | cons x xs ih =>
    rw [strchrAux] at h
    by_cases hx : x = c
    · rw [if_pos hx] at h
      exact ⟨[], xs, by simp [hx], by simpa using (Option.some.inj h).symm, by simp⟩
    · rw [if_neg hx] at h
      by_cases hn : x = NUL
      · rw [if_pos hn] at h
        exact absurd h (by simp)
      · rw [if_neg hn] at h
        obtain ⟨a, b, he, hj, ha⟩ := ih (i + 1) h
        refine ⟨x :: a, b, by simp [he], by simp [hj]; omega, ?_⟩
        intro y hy
        rcases List.mem_cons.1 hy with rfl | hy
        · exact ⟨hx, hn⟩
        · exact ha y hy

/-- Every buffer that the scan accepts has the four delimiters: a closing
parenthesis, one more byte, and three spaces, with no NUL byte before the
third space other than the skipped byte. -/
theorem parse_accepted_shape (cfg : Config) (buf msg : List Char) (al : Nat) (p : Parsed)
    (h : parse cfg buf = (msg, al, some p)) :
    ∃ pre sep addr mode id R4,
      buf = pre ++ ')' :: sep :: (addr ++ ' ' :: (mode ++ ' ' :: (id ++ ' ' :: R4))) ∧
      (∀ x ∈ pre, x ≠ ')' ∧ x ≠ NUL) ∧ (∀ x ∈ addr, x ≠ ' ' ∧ x ≠ NUL) ∧
      (∀ x ∈ mode, x ≠ ' ' ∧ x ≠ NUL) ∧ (∀ x ∈ id, x ≠ ' ' ∧ x ≠ NUL) := by
  unfold parse at h
  simp only at h
  split at h
  · exact absurd h (by simp)
  · rename_i p0 h1
    obtain ⟨pre, rest1, hb, hp0, hpre⟩ := strchrAux_split ')' buf 0 p0 (by simpa [strchr] using h1)
    rw [Nat.zero_add] at hp0
    subst hb hp0
    rw [set_append_cons pre _ ')' NUL _ rfl] at h
    split at h
    · exact absurd h (by simp)
    · rename_i q h2
      cases rest1 with
      | nil =>
        have hd : (pre ++ [NUL]).drop (pre.length + 2) = [] :=
          List.drop_eq_nil_of_le (by simp)
        rw [strchr, hd] at h2
        exact absurd h2 (by simp [strchrAux])
      | cons sep rest2 =>
        have e2 : pre ++ NUL :: sep :: rest2 = (pre ++ [NUL, sep]) ++ rest2 := by simp
        rw [e2, strchr_append _ _ ' ' _ (by simp)] at h2
        obtain ⟨addr, R2, hr2, hq, haddr⟩ := strchrAux_split ' ' rest2 _ q h2
        subst hr2 hq
        have e3 : pre ++ NUL :: sep :: (addr ++ ' ' :: R2)
            = (pre ++ NUL :: sep :: (addr ++ [' '])) ++ R2 := by simp
        split at h
        · exact absurd h (by simp)
        · rename_i r h3
          rw [e3, strchr_append _ _ ' ' _ (by simp; omega)] at h3
          obtain ⟨mode, R3, hr3, hr, hmode⟩ := strchrAux_split ' ' R2 _ r h3
          subst hr3 hr
          have e4 : pre ++ NUL :: sep :: (addr ++ ' ' :: (mode ++ ' ' :: R3))
              = (pre ++ NUL :: sep :: (addr ++ ' ' :: mode)) ++ ' ' :: R3 := by simp
          rw [e4, set_append_cons _ _ ' ' NUL _ (by simp; omega)] at h
          have e5 : (pre ++ NUL :: sep :: (addr ++ ' ' :: mode)) ++ NUL :: R3
              = (pre ++ NUL :: sep :: (addr ++ ' ' :: (mode ++ [NUL]))) ++ R3 := by simp
          split at h
          · exact absurd h (by simp)
          · rename_i s h4
            rw [e5, strchr_append _ _ ' ' _ (by simp; omega)] at h4
            obtain ⟨id, R4, hr4, -, hid⟩ := strchrAux_split ' ' R3 _ s h4
            subst hr4
            exact ⟨pre, sep, addr, mode, id, R4, rfl, hpre, haddr, hmode, hid⟩

theorem cstr_drop_left (A R : List Char) (n : Nat) (hn : n = A.length) :
    cstr (A ++ R) n = R.takeWhile (fun x => x != NUL) := by
  subst hn
  simp [cstr]

/-- What an accepted directive is made of: the received buffer has the four
delimiters, the mode bits come from the three bytes that follow the space
ending the source address, the originating peer name is the C string at
index 1 of the scanned buffer, the target peer id is the field between the
second and the third space, and the payload is the C string after the third
space. -/
theorem directive_accepted (cfg : Config) (buf dgram : List Char) (d : Directive)
    (h : directive cfg buf dgram = some d) :
    ∃ pre sep addr mode id R4,
      (OS_RecvUnix OS_SIZE_1024 buf dgram).2 =
        pre ++ ')' :: sep :: (addr ++ ' ' :: (mode ++ ' ' :: (id ++ ' ' :: R4))) ∧
      (∀ x ∈ pre, x ≠ ')' ∧ x ≠ NUL) ∧ (∀ x ∈ addr, x ≠ ' ' ∧ x ≠ NUL) ∧
      (∀ x ∈ mode, x ≠ ' ' ∧ x ≠ NUL) ∧ (∀ x ∈ id, x ≠ ' ' ∧ x ≠ NUL) ∧
      d.ar_location = modeBits cfg
        ((mode ++ ' ' :: (id ++ ' ' :: R4)).getD 0 NUL)
        ((mode ++ ' ' :: (id ++ ' ' :: R4)).getD 1 NUL)
        ((mode ++ ' ' :: (id ++ ' ' :: R4)).getD 2 NUL) ∧
      d.location =
        cstr (pre ++ NUL :: sep :: (addr ++ ' ' :: (mode ++ NUL :: (id ++ NUL :: R4)))) 1 ∧
      d.ar_agent_id = id ∧
      d.payload = R4.takeWhile (fun x => x != NUL) := by
  unfold directive at h
  simp only at h
  split_ifs at h with h0
  split at h
  · exact absurd h (by simp)
  · rename_i msg al p hp
    simp only [Option.some.injEq] at h
    subst h
    obtain ⟨pre, sep, addr, mode, id, R4, hb, hpre, haddr, hmode, hid⟩ :=
      parse_accepted_shape cfg _ msg al p hp
    rw [hb, parse_delimited cfg pre addr mode id R4 sep hpre haddr hmode hid] at hp
    simp only [Prod.mk.injEq, Option.some.injEq] at hp
    obtain ⟨hm, ha, hpp⟩ := hp
    subst hm ha hpp
    refine ⟨pre, sep, addr, mode, id, R4, hb, hpre, haddr, hmode, hid, rfl, rfl, ?_, ?_⟩
    · have e : pre ++ NUL :: sep :: (addr ++ ' ' :: (mode ++ NUL :: (id ++ NUL :: R4)))
          = (pre ++ NUL :: sep :: (addr ++ ' ' :: (mode ++ [NUL]))) ++ (id ++ NUL :: R4) := by
        simp
      simp only
      rw [e]
      exact cstr_append _ id R4 _ (by simp; omega) (fun x hx => (hid x hx).2)
    · have e : pre ++ NUL :: sep :: (addr ++ ' ' :: (mode ++ NUL :: (id ++ NUL :: R4)))
          = (pre ++ NUL :: sep :: (addr ++ ' ' :: (mode ++ NUL :: (id ++ [NUL])))) ++ R4 := by
        simp
      simp only
      rw [e]
      exact cstr_drop_left _ R4 _ (by simp; omega)

/-! ## Lemmas on the originating peer name and on well-formed lines -/

theorem first_occurrence_unique (c : Char) (A A2 B B2 : List Char)
    (hA : ∀ x ∈ A, x ≠ c) (hA2 : ∀ x ∈ A2, x ≠ c) (h : A ++ c :: B = A2 ++ c :: B2) :
    A = A2 := by
  induction A generalizing A2 with
  | nil =>
    cases A2 with
    | nil => rfl
    | cons a A2 =>
      simp only [List.nil_append, List.cons_append, List.cons.injEq] at h
      exact absurd h.1.symm (hA2 a (List.mem_cons_self _ _))
  | cons a A ih =>
    cases A2 with
    | nil =>
      simp only [List.nil_append, List.cons_append, List.cons.injEq] at h
      exact absurd h.1 (hA a (List.mem_cons_self _ _))
    | cons a2 A2 =>
      simp only [List.cons_append, List.cons.injEq] at h
      rw [h.1, ih A2 (fun x hx => hA x (List.mem_cons_of_mem _ hx))
        (fun x hx => hA2 x (List.mem_cons_of_mem _ hx)) h.2]

/-- Where the code does extract the name: for every accepted directive whose
received line has at least one byte before its first closing parenthesis,
the originating peer name is what stands between that first byte and the
parenthesis, whatever the buffer held before. -/
theorem name_of_accepted (cfg : Config) (buf dgram : List Char) (d : Directive)
    (c0 : Char) (name rest : List Char)
    (h : directive cfg buf dgram = some d)
    (hd : dgram.take (OS_SIZE_1024 - 1) = c0 :: (name ++ ')' :: rest))
    (hn : ∀ x ∈ c0 :: name, x ≠ ')') :
    d.location = name := by
  obtain ⟨pre, sep, addr, mode, id, R4, hb, hpre, -, -, -, -, hloc, -, -⟩ :=
    directive_accepted cfg buf dgram d h
  have hbuf : (OS_RecvUnix OS_SIZE_1024 buf dgram).2
      = (c0 :: name) ++ ')' :: (rest ++ NUL ::
          buf.drop ((dgram.take (OS_SIZE_1024 - 1)).length + 1)) := by
    simp only [OS_RecvUnix, hd]
    simp
  have hpre2 : pre = c0 :: name :=
    first_occurrence_unique ')' pre (c0 :: name) _ _ (fun x hx => (hpre x hx).1) hn
      (hb.symm.trans hbuf)
  subst hpre2
  rw [hloc]
  exact cstr_append [c0] name _ 1 rfl
    (fun x hx => (hpre x (List.mem_cons_of_mem _ hx)).2)

/-- The directive extracted from a well-formed line, for a mode-code field of
any length: it does not depend on what the buffer held before. -/
theorem directive_wireLine (cfg : Config) (buf name addr mode id payload : List Char)
    (hname : ∀ x ∈ name, x ≠ ')' ∧ x ≠ NUL)
    (haddr : ∀ x ∈ addr, x ≠ ' ' ∧ x ≠ NUL)
    (hmode : ∀ x ∈ mode, x ≠ ' ' ∧ x ≠ NUL)
    (hid : ∀ x ∈ id, x ≠ ' ' ∧ x ≠ NUL)
    (hpay : ∀ x ∈ payload, x ≠ NUL)
    (hlen : (wireLine name addr mode id payload).length ≤ OS_SIZE_1024 - 1) :
    directive cfg buf (wireLine name addr mode id payload) =
      some ⟨modeBits cfg
        ((mode ++ ' ' :: (id ++ ' ' :: (payload ++ [NUL]))).getD 0 NUL)
        ((mode ++ ' ' :: (id ++ ' ' :: (payload ++ [NUL]))).getD 1 NUL)
        ((mode ++ ' ' :: (id ++ ' ' :: (payload ++ [NUL]))).getD 2 NUL),
        name, id, payload⟩ := by
  obtain ⟨msg, p, hp, hn, hi, hpl⟩ := parse_fields cfg name addr mode id payload
    (buf.drop ((wireLine name addr mode id payload).length + 1)) '(' ' '
    (by decide) hname haddr hmode hid hpay
  have hne : (wireLine name addr mode id payload).length ≠ 0 := by simp [wireLine]
  have hbuf : wireLine name addr mode id payload ++
      NUL :: buf.drop ((wireLine name addr mode id payload).length + 1)
      = '(' :: (name ++ ')' :: ' ' :: (addr ++ ' ' :: (mode ++ ' ' ::
        (id ++ ' ' :: (payload ++ NUL ::
          buf.drop ((wireLine name addr mode id payload).length + 1)))))) := by
    simp [wireLine]
  have hx : ∀ t : List Char, mode ++ ' ' :: (id ++ ' ' :: (payload ++ NUL :: t))
      = (mode ++ ' ' :: (id ++ ' ' :: (payload ++ [NUL]))) ++ t := by
    intro t; simp
  have hl : 3 ≤ (mode ++ ' ' :: (id ++ ' ' :: (payload ++ [NUL]))).length := by
    simp; omega
  have g : ∀ (t : List Char) (k : Nat), k < 3 →
      (mode ++ ' ' :: (id ++ ' ' :: (payload ++ NUL :: t))).getD k NUL
        = (mode ++ ' ' :: (id ++ ' ' :: (payload ++ [NUL]))).getD k NUL := by
    intro t k hk
    rw [hx, List.getD_append _ _ _ k (by omega)]
  rw [g _ 0 (by omega), g _ 1 (by omega), g _ 2 (by omega)] at hp
  unfold directive
  simp only [OS_RecvUnix_fits buf _ hlen, hne, if_false, hbuf, hp, hn, hi, hpl]

/-! ## Lemmas on the dispatcher without the increment -/

theorem dispatch_noinc_world (cfg : Config) (keys : keystore) (w : World) (al : Nat)
    (loc id m : List Char) :
    (dispatch_noinc cfg keys w al loc id m).1 = (dispatch cfg keys w al loc id m).1 := by
  unfold dispatch_noinc dispatch
  simp only
  split_ifs <;> rfl

theorem iter_noinc_agrees (cfg : Config) (keys : keystore) (st st2 : State)
    (dgram : List Char) (hm : st2.msg = st.msg) (hw : st2.world = st.world) :
    (AR_Forward_iter_noinc cfg keys st2 dgram).msg = (AR_Forward_iter cfg keys st dgram).msg ∧
    (AR_Forward_iter_noinc cfg keys st2 dgram).world
      = (AR_Forward_iter cfg keys st dgram).world := by
  unfold AR_Forward_iter_noinc AR_Forward_iter
  simp only [hm, hw]
  split_ifs with h0
  · exact ⟨rfl, rfl⟩
  · split
    · exact ⟨rfl, rfl⟩
    · exact ⟨rfl, dispatch_noinc_world _ _ _ _ _ _ _⟩

theorem run_noinc_agrees (cfg : Config) (keys : keystore) (dgrams : List (List Char))
    (st st2 : State) (hm : st2.msg = st.msg) (hw : st2.world = st.world) :
    (dgrams.foldl (AR_Forward_iter_noinc cfg keys) st2).msg
      = (dgrams.foldl (AR_Forward_iter cfg keys) st).msg ∧
    (dgrams.foldl (AR_Forward_iter_noinc cfg keys) st2).world
      = (dgrams.foldl (AR_Forward_iter cfg keys) st).world := by
  induction dgrams generalizing st st2 with
  | nil => exact ⟨hm, hw⟩
  | cons dg rest ih =>
    obtain ⟨h1, h2⟩ := iter_noinc_agrees cfg keys st st2 dg hm hw
    exact ih _ _ h1 h2

/-- The increment is there: after the SpecificPeer example the counter is 5
with it and 4 without it. -/
theorem increment_changes_counter :
    (AR_Forward specConfig sampleKeys okWorld [lineSpecific]).ar_location = 5 ∧
    (AR_Forward_noinc specConfig sampleKeys okWorld [lineSpecific]).ar_location = 4 := by
  decide!

/-! ## Lemmas on concurrent calls -/

theorem lockAfter_append (b : Bool) (xs ys : List Event) :
    lockAfter b (xs ++ ys) = lockAfter (lockAfter b xs) ys := by
  induction xs generalizing b with
  | nil => rfl
  | cons x xs ih => cases x <;> simp [lockAfter, ih]

/-- When every write and unlock of a trace happens under the lock, the caller
holds the lock just before each of them. -/
theorem critLocked_split (b : Bool) (Q T : List Event) (ev : Event)
    (h : critLocked b (Q ++ ev :: T) = true) (hev : isWrite ev = true ∨ isUnlock ev = true) :
    lockAfter b Q = true := by
  induction Q generalizing b with
  | nil =>
    cases ev <;> simp_all [critLocked, lockAfter, isWrite, isUnlock]
  | cons x xs ih =>
    rw [List.cons_append] at h
    cases x with
    | sendto a sz r =>
      simp only [critLocked, Bool.and_eq_true] at h
      simpa only [lockAfter] using ih b h.2
    | pthread_mutex_lock r =>
      simp only [critLocked] at h
      simpa only [lockAfter] using ih _ h
    | pthread_mutex_unlock r =>
      simp only [critLocked, Bool.and_eq_true] at h
      simpa only [lockAfter] using ih _ h.2
    | _ =>
      simp only [critLocked] at h
      simpa only [lockAfter] using ih b h

/-- In the trace of a call of `send_msg` every write and every unlock happens
under the lock that the call itself acquired. -/
theorem critLocked_callTrace (cfg : Config) (c : Caller) :
    critLocked false (callTrace cfg c) = true := by
  unfold callTrace send_msg
  simp only [World.log]
  split_ifs <;> simp_all [critLocked]

theorem projection_append (i : Nat) (xs ys : List (Nat × Event)) :
    projection i (xs ++ ys) = projection i xs ++ projection i ys := by
  simp [projection]

theorem projection_cons_self (s : Nat × Event) (xs : List (Nat × Event)) :
    projection s.1 (s :: xs) = s.2 :: projection s.1 xs := by
  simp [projection]

theorem projection_singleton_ne (i : Nat) (s : Nat × Event) (h : s.1 ≠ i) :
    projection i [s] = [] := by
  simp [projection, h]

theorem mutexAfter_append (h : Option Nat) (xs ys : List (Nat × Event)) :
    mutexAfter h (xs ++ ys) = mutexAfter (mutexAfter h xs) ys := by
  simp [mutexAfter, List.foldl_append]

/-- In a schedule that grants the lock only when it is free, the mutex has no
holder just before every call of `pthread_mutex_lock` that returns 0. -/
theorem granted_split (h : Option Nat) (pre post : List (Nat × Event)) (s : Nat × Event)
    (hg : granted h (pre ++ s :: post) = true) (hs : s.2 = Event.pthread_mutex_lock 0) :
    mutexAfter h pre = none := by
  induction pre generalizing h with
  | nil =>
    simp only [List.nil_append, granted, hs, Bool.and_eq_true] at hg
    simpa [mutexAfter] using hg.1
  | cons x xs ih =>
    simp only [List.cons_append, granted, Bool.and_eq_true] at hg
    simpa [mutexAfter] using ih (mutexStep h x) hg.2

/-- The invariant of an interleaving under the mutex: at every point of the
schedule a caller holds the lock, judged by its own lock and unlock calls,
exactly when it is the holder of the mutex. -/
theorem mutex_invariant (traces : Nat → List Event) (sched : List (Nat × Event))
    (hint : interleaving traces sched = true) (hgr : granted none sched = true)
    (hcrit : ∀ i, critLocked false (traces i) = true) :
    ∀ pre post, sched = pre ++ post →
      ∀ i, holdsLock i pre = true ↔ mutexAfter none pre = some i := by
  intro pre
  induction pre using List.reverseRecOn with
  | nil =>
    intro post _ i
    simp [holdsLock, projection, lockAfter, mutexAfter]
  | append_singleton pre s ih =>
    intro post hs i
    have hs2 : sched = pre ++ s :: post := by rw [hs]; simp
    have ih2 := ih (s :: post) hs2
    have hmem : s ∈ sched := by rw [hs2]; simp
    obtain ⟨T, hT⟩ := List.isPrefixOf_iff_prefix.1 (List.all_eq_true.1 hint s hmem)
    have hT2 : traces s.1 = projection s.1 pre ++ s.2 :: (projection s.1 post ++ T) := by
      rw [← hT, hs2, projection_append, projection_cons_self]
      simp
    have hc := hcrit s.1
    rw [hT2] at hc
    have hheld : (isWrite s.2 = true ∨ isUnlock s.2 = true) → holdsLock s.1 pre = true :=
      fun hev => critLocked_split false _ _ _ hc hev
    have hfree : s.2 = Event.pthread_mutex_lock 0 → mutexAfter none pre = none :=
      fun he => granted_split none pre post s (hs2 ▸ hgr) he
    rw [mutexAfter_append]
    simp only [holdsLock, projection_append, lockAfter_append]
    show lockAfter (holdsLock i pre) (projection i [s]) = true ↔
      mutexStep (mutexAfter none pre) s = some i
    obtain ⟨k, e⟩ := s
    by_cases hi : k = i
    · subst hi
      have hp : projection k [(k, e)] = [e] := by simp [projection]
      rw [hp]
      cases e with
      | pthread_mutex_lock r =>
        by_cases hr : r = 0
        · simp [lockAfter, mutexStep, hr]
        · simpa [lockAfter, mutexStep, hr] using ih2 k
      | pthread_mutex_unlock r =>
        by_cases hr : r = 0
        · simp [lockAfter, mutexStep, hr]
        · simpa [lockAfter, mutexStep, hr] using ih2 k
      | _ => simpa [lockAfter, mutexStep] using ih2 k
    · rw [projection_singleton_ne i (k, e) hi]
      cases e with
      | pthread_mutex_lock r =>
        by_cases hr : r = 0
        · subst hr
          have h0 := hfree rfl
          have h1 := ih2 i
          rw [h0] at h1
          simp only [lockAfter, mutexStep, if_true, Option.some.injEq]
          constructor
          · intro h; exact absurd (h1.1 h) (by simp)
          · intro h; exact absurd h hi
        · simpa [lockAfter, mutexStep, hr] using ih2 i
      | pthread_mutex_unlock r =>
        by_cases hr : r = 0
        · subst hr
          have h0 := (ih2 k).1 (hheld (Or.inr rfl))
          have h1 := ih2 i
          rw [h0] at h1
          simp only [lockAfter, mutexStep, if_true]
          constructor
          · intro h; exact absurd (Option.some.inj (h1.1 h)) hi
          · intro h; exact absurd h (by simp)
        · simpa [lockAfter, mutexStep, hr] using ih2 i
      | _ => simpa [lockAfter, mutexStep] using ih2 i

/-- In an interleaving of calls of `send_msg`, the caller of a write or of an
unlock holds the lock, by its own calls, just before that event. -/
theorem holds_before_critical (cfg : Config) (callers : Nat → Caller)
    (sched pre rest : List (Nat × Event)) (s : Nat × Event)
    (hint : interleaving (fun i => callTrace cfg (callers i)) sched = true)
    (hs : sched = pre ++ s :: rest) (hev : isWrite s.2 = true ∨ isUnlock s.2 = true) :
    holdsLock s.1 pre = true := by
  have hmem : s ∈ sched := by rw [hs]; simp
  obtain ⟨T, hT⟩ := List.isPrefixOf_iff_prefix.1 (List.all_eq_true.1 hint s hmem)
  have hT2 : callTrace cfg (callers s.1)
      = projection s.1 pre ++ s.2 :: (projection s.1 rest ++ T) := by
    have hT3 : callTrace cfg (callers s.1) = projection s.1 sched ++ T := hT.symm
    rw [hT3, hs, projection_append, projection_cons_self]
    simp
  have hc := critLocked_callTrace cfg (callers s.1)
  rw [hT2] at hc
  exact critLocked_split false _ _ _ hc hev

/-- The mutex is what keeps the calls apart: the schedule in which caller 1
is given the lock while caller 0 holds it is an interleaving of two calls of
`send_msg`, it is not a schedule the mutex allows, and in it both callers
hold the lock after the sixth event. -/
theorem overlap_needs_broken_mutex :
    interleaving (fun _ => callTrace specConfig okCaller) overlappingSchedule = true ∧
    granted none overlappingSchedule = false ∧
    holdsLock 0 (overlappingSchedule.take 6) = true ∧
    holdsLock 1 (overlappingSchedule.take 6) = true := by
  decide

/-! ## The claims -/

/-- C1: wire-format round trip. For every name without a closing parenthesis,
every source address and target id without a space, every three mode
characters other than the space, and every payload (all of them C text, that
is, free of the NUL byte), if the line
`(name) addr mode id payload` fits the 1023-byte receive limit then the
iteration accepts it whatever the buffer held before, and extracts exactly
the originating peer name, the target peer id and the payload; the value of
`ar_location` is the one the three mode characters give, and with distinct
flag bits each flag is set exactly when the mode character at its position is
the sentinel of that position. -/
theorem wire_format_round_trip (cfg : Config) (buf name addr id payload : List Char)
    (m0 m1 m2 : Char)
    (hname : ∀ x ∈ name, x ≠ ')' ∧ x ≠ NUL)
    (haddr : ∀ x ∈ addr, x ≠ ' ' ∧ x ≠ NUL)
    (hm0 : m0 ≠ ' ' ∧ m0 ≠ NUL) (hm1 : m1 ≠ ' ' ∧ m1 ≠ NUL) (hm2 : m2 ≠ ' ' ∧ m2 ≠ NUL)
    (hid : ∀ x ∈ id, x ≠ ' ' ∧ x ≠ NUL)
    (hpay : ∀ x ∈ payload, x ≠ NUL)
    (hlen : (wireFormat name addr m0 m1 m2 id payload).length ≤ OS_SIZE_1024 - 1) :
    ∃ d, directive cfg buf (wireFormat name addr m0 m1 m2 id payload) = some d ∧
      d.location = name ∧ d.ar_agent_id = id ∧ d.payload = payload ∧
      d.ar_location = modeBits cfg m0 m1 m2 ∧
      (cfg.flagsDistinct →
        (d.ar_location &&& cfg.ALL_AGENTS ≠ 0 ↔ m0 = cfg.ALL_AGENTS_C) ∧
        (d.ar_location &&& cfg.REMOTE_AGENT ≠ 0 ↔ m1 = cfg.REMOTE_AGENT_C) ∧
        (d.ar_location &&& cfg.SPECIFIC_AGENT ≠ 0 ↔ m2 = cfg.SPECIFIC_AGENT_C)) := by
  obtain ⟨msg, p, hp, hn, hi, hpl⟩ := parse_wellformed cfg name addr id payload
    (buf.drop ((wireFormat name addr m0 m1 m2 id payload).length + 1)) '(' ' ' m0 m1 m2
    (by decide) hname haddr hm0 hm1 hm2 hid hpay
  have hne : (wireFormat name addr m0 m1 m2 id payload).length ≠ 0 := by simp [wireFormat]
  have hbuf : wireFormat name addr m0 m1 m2 id payload ++
      NUL :: buf.drop ((wireFormat name addr m0 m1 m2 id payload).length + 1)
      = '(' :: (name ++ ')' :: ' ' :: (addr ++ ' ' :: m0 :: m1 :: m2 :: ' ' ::
        (id ++ ' ' :: (payload ++ NUL ::
          buf.drop ((wireFormat name addr m0 m1 m2 id payload).length + 1))))) := by
    simp [wireFormat]
  refine ⟨⟨modeBits cfg m0 m1 m2, name, id, payload⟩, ?_, rfl, rfl, rfl, rfl, ?_⟩
  · unfold directive
    simp only [OS_RecvUnix_fits buf _ hlen, hne, if_false, hbuf, hp, hn, hi, hpl]
  · intro hcfg
    exact modeBits_flags cfg hcfg m0 m1 m2

/-- Witness for C1: the line `(agentA) 10.0.0.5 001 agentB restart-service`
received into the zeroed buffer gives the name agentA, the id agentB and the
payload restart-service. -/
theorem wire_format_round_trip_witness :
    wireFormat "agentA".toList "10.0.0.5".toList '0' '0' '1' "agentB".toList
        "restart-service".toList = "(agentA) 10.0.0.5 001 agentB restart-service".toList ∧
    ∃ d, directive specConfig (State.init okWorld).msg
        (wireFormat "agentA".toList "10.0.0.5".toList '0' '0' '1' "agentB".toList
          "restart-service".toList) = some d ∧
      d.location = "agentA".toList ∧ d.ar_agent_id = "agentB".toList ∧
      d.payload = "restart-service".toList ∧
      d.ar_location = modeBits specConfig '0' '0' '1' ∧
      (specConfig.flagsDistinct →
        (d.ar_location &&& specConfig.ALL_AGENTS ≠ 0 ↔ '0' = specConfig.ALL_AGENTS_C) ∧
        (d.ar_location &&& specConfig.REMOTE_AGENT ≠ 0 ↔ '0' = specConfig.REMOTE_AGENT_C) ∧
        (d.ar_location &&& specConfig.SPECIFIC_AGENT ≠ 0 ↔ '1' = specConfig.SPECIFIC_AGENT_C)) :=
  ⟨by decide,
   wire_format_round_trip specConfig (State.init okWorld).msg "agentA".toList "10.0.0.5".toList
    "agentB".toList "restart-service".toList '0' '0' '1'
    (by decide) (by decide) (by decide) (by decide) (by decide) (by decide) (by decide)
    (by decide)⟩

/-- C3: a line without a closing parenthesis is rejected as malformed. For
every datagram that contains no `)`, whatever the buffer and the world were
before: the iteration accepts no directive, and all it adds to the trace is
the report `EXECD_INV_MSG` of the received line (nothing at all when the
datagram is empty, since then nothing was received); it makes no call of
`send_msg` and no roster lookup. -/
theorem no_paren_rejected (cfg : Config) (keys : keystore) (st : State) (dgram : List Char)
    (h : ∀ x ∈ dgram, x ≠ ')') :
    directive cfg st.msg dgram = none ∧
    ∃ evs, (AR_Forward_iter cfg keys st dgram).world.trace = st.world.trace ++ evs ∧
      (dgram ≠ [] →
        evs = [Event.merror_inv_msg (cstr (OS_RecvUnix OS_SIZE_1024 st.msg dgram).2 0)]) ∧
      sendCalls evs = [] ∧ ∀ e ∈ evs, isLookup e = false := by
  have hs : strchr (OS_RecvUnix OS_SIZE_1024 st.msg dgram).2 0 ')' = none :=
    strchr_zero_none _ _ (fun x hx => h x (List.mem_of_mem_take hx))
  have hp := parse_no_paren cfg _ hs
  constructor
  · unfold directive
    simp only [hp]
    split_ifs <;> rfl
  · unfold AR_Forward_iter
    simp only [hp]
    by_cases h0 : (OS_RecvUnix OS_SIZE_1024 st.msg dgram).1 = 0
    · refine ⟨[], by simp [h0], ?_, rfl, by simp⟩
      intro hne
      exfalso
      cases dgram with
      | nil => exact hne rfl
      | cons x xs => simp [OS_RecvUnix, OS_SIZE_1024] at h0
    · exact ⟨_, by simp only [h0, if_false, World.log], fun _ => rfl, rfl, by simp [isLookup]⟩

/-- Witness for C3: a line of 39 bytes without a closing parenthesis. -/
theorem no_paren_rejected_witness :
    directive specConfig (State.init okWorld).msg
      "(agentA 10.0.0.5 100 - restart-service".toList = none ∧
    ∃ evs, (AR_Forward_iter specConfig sampleKeys (State.init okWorld)
        "(agentA 10.0.0.5 100 - restart-service".toList).world.trace
        = (State.init okWorld).world.trace ++ evs ∧
      ("(agentA 10.0.0.5 100 - restart-service".toList ≠ [] →
        evs = [Event.merror_inv_msg (cstr (OS_RecvUnix OS_SIZE_1024 (State.init okWorld).msg
          "(agentA 10.0.0.5 100 - restart-service".toList).2 0)]) ∧
      sendCalls evs = [] ∧ ∀ e ∈ evs, isLookup e = false :=
  no_paren_rejected specConfig sampleKeys (State.init okWorld)
    "(agentA 10.0.0.5 100 - restart-service".toList (by decide)

/-- C6: SpecificPeer resolution. For every accepted directive whose Broadcast
and OriginatingPeer bits are clear and whose SpecificPeer bit is set: the
target peer id is looked up by id; if the result is negative the iteration
reports the unknown agent and makes no call of `send_msg`; otherwise it makes
exactly one call of `send_msg`, to the looked-up index, with the formatted
command. -/
theorem specific_peer_resolution (cfg : Config) (keys : keystore) (st : State)
    (dgram : List Char) (d : Directive) (h : directive cfg st.msg dgram = some d)
    (hA : d.ar_location &&& cfg.ALL_AGENTS = 0) (hR : d.ar_location &&& cfg.REMOTE_AGENT = 0)
    (hS : d.ar_location &&& cfg.SPECIFIC_AGENT ≠ 0) :
    ∃ evs, (AR_Forward_iter cfg keys st dgram).world.trace = st.world.trace ++
        Event.IsAllowedID d.ar_agent_id (keys.IsAllowedID d.ar_agent_id) :: evs ∧
      (keys.IsAllowedID d.ar_agent_id < 0 →
        evs = [Event.merror_noagent d.ar_agent_id] ∧ sendCalls evs = []) ∧
      (¬ keys.IsAllowedID d.ar_agent_id < 0 →
        (∃ inner, evs = Event.send_msg (keys.IsAllowedID d.ar_agent_id) (d.msg_to_send cfg)
            :: inner ∧ ∀ e ∈ inner, isInner e = true) ∧
        sendCalls evs = [(keys.IsAllowedID d.ar_agent_id, d.msg_to_send cfg)]) := by
  rw [iter_world_of_directive cfg keys st dgram d h, dispatch_specific _ _ _ _ _ _ _ hA hR hS]
  obtain ⟨evs, ht, hneg, hpos⟩ := resolve_trace cfg st.world
    (Event.IsAllowedID d.ar_agent_id (keys.IsAllowedID d.ar_agent_id)) d.ar_agent_id
    (keys.IsAllowedID d.ar_agent_id) (d.msg_to_send cfg)
  refine ⟨evs, ht, fun hr => ⟨hneg hr, by rw [hneg hr]; rfl⟩, fun hr => ⟨hpos hr, ?_⟩⟩
  obtain ⟨inner, he, hin⟩ := hpos hr
  rw [he]
  simp [sendCalls, sendCalls_of_inner inner hin]

/-- Witness for C6: the SpecificPeer example of the spec on the sample roster. -/
theorem specific_peer_resolution_witness :
    ∃ evs, (AR_Forward_iter specConfig sampleKeys (State.init okWorld) lineSpecific).world.trace
        = (State.init okWorld).world.trace ++ Event.IsAllowedID "agentB".toList 1 :: evs ∧
      ((1 : Int) < 0 → evs = [Event.merror_noagent "agentB".toList] ∧ sendCalls evs = []) ∧
      (¬ (1 : Int) < 0 →
        (∃ inner, evs = Event.send_msg 1 sampleCommand :: inner ∧
          ∀ e ∈ inner, isInner e = true) ∧
        sendCalls evs = [(1, sampleCommand)]) :=
  specific_peer_resolution specConfig sampleKeys (State.init okWorld) lineSpecific
    ⟨4, "agentA".toList, "agentB".toList, "restart-service".toList⟩ (by decide!)
    (by decide) (by decide) (by decide)

/-- C7: OriginatingPeer resolution. For every accepted directive whose
Broadcast bit is clear and whose OriginatingPeer bit is set, whatever the
SpecificPeer bit is: the originating peer name parsed from the line is looked
up by name and no other lookup is made (the target peer id is not consulted);
if the result is negative the iteration reports the unknown agent and makes
no call of `send_msg`; otherwise it makes exactly one call of `send_msg`, to
the looked-up index, with the formatted command. -/
theorem originating_peer_resolution (cfg : Config) (keys : keystore) (st : State)
    (dgram : List Char) (d : Directive) (h : directive cfg st.msg dgram = some d)
    (hA : d.ar_location &&& cfg.ALL_AGENTS = 0) (hR : d.ar_location &&& cfg.REMOTE_AGENT ≠ 0) :
    ∃ evs, (AR_Forward_iter cfg keys st dgram).world.trace = st.world.trace ++
        Event.IsAllowedName d.location (keys.IsAllowedName d.location) :: evs ∧
      (∀ e ∈ evs, isLookup e = false) ∧
      (keys.IsAllowedName d.location < 0 →
        evs = [Event.merror_noagent d.location] ∧ sendCalls evs = []) ∧
      (¬ keys.IsAllowedName d.location < 0 →
        (∃ inner, evs = Event.send_msg (keys.IsAllowedName d.location) (d.msg_to_send cfg)
            :: inner ∧ ∀ e ∈ inner, isInner e = true) ∧
        sendCalls evs = [(keys.IsAllowedName d.location, d.msg_to_send cfg)]) := by
  rw [iter_world_of_directive cfg keys st dgram d h, dispatch_remote _ _ _ _ _ _ _ hA hR]
  obtain ⟨evs, ht, hneg, hpos⟩ := resolve_trace cfg st.world
    (Event.IsAllowedName d.location (keys.IsAllowedName d.location)) d.location
    (keys.IsAllowedName d.location) (d.msg_to_send cfg)
  refine ⟨evs, ht, ?_, fun hr => ⟨hneg hr, by rw [hneg hr]; rfl⟩, fun hr => ⟨hpos hr, ?_⟩⟩
  · by_cases hr : keys.IsAllowedName d.location < 0
    · rw [hneg hr]; simp [isLookup]
    · obtain ⟨inner, he, hin⟩ := hpos hr
      rw [he]
      intro e hmem
      rcases List.mem_cons.1 hmem with rfl | hmem
      · rfl
      · exact not_lookup_of_inner e (hin e hmem)
  · obtain ⟨inner, he, hin⟩ := hpos hr
    rw [he]
    simp [sendCalls, sendCalls_of_inner inner hin]

/-- Witness for C7: the OriginatingPeer example of the spec,
`(agentA) 10.0.0.5 010 - restart-service`, on the sample roster. -/
theorem originating_peer_resolution_witness :
    ∃ evs, (AR_Forward_iter specConfig sampleKeys (State.init okWorld)
        lineOriginating).world.trace
        = (State.init okWorld).world.trace ++ Event.IsAllowedName "agentA".toList 0 :: evs ∧
      (∀ e ∈ evs, isLookup e = false) ∧
      ((0 : Int) < 0 → evs = [Event.merror_noagent "agentA".toList] ∧ sendCalls evs = []) ∧
      (¬ (0 : Int) < 0 →
        (∃ inner, evs = Event.send_msg 0 sampleCommand :: inner ∧
          ∀ e ∈ inner, isInner e = true) ∧
        sendCalls evs = [(0, sampleCommand)]) :=
  originating_peer_resolution specConfig sampleKeys (State.init okWorld) lineOriginating
    ⟨2, "agentA".toList, "-".toList, "restart-service".toList⟩ (by decide!)
    (by decide) (by decide)

/-- C8: broadcast. For every accepted directive with the Broadcast bit set,
every roster size and every outside world (whatever each call of `send_msg`
finds and returns): the calls of `send_msg` made by the iteration are exactly
one per roster index, in the order 0, 1, ..., keysize - 1, each with the same
formatted command; no lookup is made. -/
theorem broadcast_each_once (cfg : Config) (keys : keystore) (st : State)
    (dgram : List Char) (d : Directive) (h : directive cfg st.msg dgram = some d)
    (hA : d.ar_location &&& cfg.ALL_AGENTS ≠ 0) :
    ∃ evs, (AR_Forward_iter cfg keys st dgram).world.trace = st.world.trace ++ evs ∧
      sendCalls evs =
        (List.range keys.keysize.toNat).map (fun i => (Int.ofNat i, d.msg_to_send cfg)) ∧
      ∀ e ∈ evs, isLookup e = false := by
  rw [iter_world_of_directive cfg keys st dgram d h, dispatch_all _ _ _ _ _ _ _ hA]
  exact send_all_trace cfg keys st.world _

/-- Witness for C8: the Broadcast example of the spec in a world where the
calls of `send_msg` fail (stale peer, encryption failure, lock failure). -/
theorem broadcast_each_once_witness :
    ∃ evs, (AR_Forward_iter specConfig sampleKeys (State.init failingWorld)
        lineBroadcast).world.trace = (State.init failingWorld).world.trace ++ evs ∧
      sendCalls evs = (List.range sampleKeys.keysize.toNat).map
        (fun i => (Int.ofNat i, Directive.msg_to_send specConfig
          ⟨1, "agentA".toList, "-".toList, "restart-service".toList⟩)) ∧
      ∀ e ∈ evs, isLookup e = false :=
  broadcast_each_once specConfig sampleKeys (State.init failingWorld) lineBroadcast
    ⟨1, "agentA".toList, "-".toList, "restart-service".toList⟩ (by decide!) (by decide)

/-- C5: trust boundary. Over every run of the daemon loop, from every world
and for every sequence of datagrams, every call of `send_msg` that
`AR_Forward` makes is addressed to a roster entry: the agent index passed is
not negative, and it is either below `keys.keysize` (broadcast) or the result
that a lookup by name (`IsAllowedName`) or by id (`IsAllowedID`) made in this
run returned. `send_msg` is never called with a negative lookup result. -/
theorem trust_boundary (cfg : Config) (keys : keystore) (w : World)
    (dgrams : List (List Char)) :
    ∃ evs, (AR_Forward cfg keys w dgrams).world.trace = w.trace ++ evs ∧
      ∀ a m, Event.send_msg a m ∈ evs →
        0 ≤ a ∧ (a < keys.keysize ∨
          ∃ s, (Event.IsAllowedName s a ∈ evs ∧ keys.IsAllowedName s = a) ∨
            (Event.IsAllowedID s a ∈ evs ∧ keys.IsAllowedID s = a)) :=
  run_rosterAddressed cfg keys dgrams (State.init w)

/-- C9: liveness check. For every call of `send_msg` that finds the peer's
last-contact timestamp older than twice the notification interval
(`keys.rcvd[agentid] < time(0) - 2 * NOTIFY_TIME`), the result is -1 and the
call does nothing beyond being entered: no encryption, no lock, no datagram
write, no report. -/
theorem stale_peer_rejected (cfg : Config) (w : World) (agentid : Int) (msg : List Char)
    (h : (w.ext w.calls).rcvd agentid < (w.ext w.calls).time - 2 * cfg.NOTIFY_TIME) :
    (send_msg cfg w agentid msg).1 = -1 ∧
    (send_msg cfg w agentid msg).2.trace = w.trace ++ [Event.send_msg agentid msg] := by
  simp [send_msg, h]

/-- Witness for C9: a peer last heard from one second before the threshold. -/
theorem stale_peer_rejected_witness :
    (staleWorld.ext staleWorld.calls).rcvd 0
        < (staleWorld.ext staleWorld.calls).time - 2 * specConfig.NOTIFY_TIME ∧
    (send_msg specConfig staleWorld 0 sampleCommand).1 = -1 ∧
    (send_msg specConfig staleWorld 0 sampleCommand).2.trace
      = staleWorld.trace ++ [Event.send_msg 0 sampleCommand] :=
  ⟨by decide, stale_peer_rejected specConfig staleWorld 0 sampleCommand (by decide)⟩

/-- C10, as the claim states it, fails: a peer whose last-contact timestamp
is exactly `time(0) - 2 * NOTIFY_TIME` is not rejected. With every external
call succeeding, `send_msg` returns 0 and the datagram is written under the lock. -/
theorem boundary_not_rejected_example :
    (boundaryWorld.ext boundaryWorld.calls).rcvd 0
        = (boundaryWorld.ext boundaryWorld.calls).time - 2 * specConfig.NOTIFY_TIME ∧
    (send_msg specConfig boundaryWorld 0 sampleCommand).1 = 0 ∧
    (send_msg specConfig boundaryWorld 0 sampleCommand).2.trace =
      [Event.send_msg 0 sampleCommand, Event.CreateSecMSG sampleCommand 0 32,
       Event.pthread_mutex_lock 0, Event.sendto 0 32 0, Event.pthread_mutex_unlock 0] := by
  decide

/-- C10, amended: the boundary is exclusive. For every call of `send_msg`
that finds the peer's last-contact timestamp exactly at the threshold
(`keys.rcvd[agentid] = time(0) - 2 * NOTIFY_TIME`), the liveness check lets
the call through: the encryption routine is called next, and when encryption
and lock acquisition succeed the datagram is written; the result is 0 when
the lock is also released. -/
theorem boundary_is_live (cfg : Config) (w : World) (agentid : Int) (msg : List Char)
    (h : (w.ext w.calls).rcvd agentid = (w.ext w.calls).time - 2 * cfg.NOTIFY_TIME) :
    (∃ evs, (send_msg cfg w agentid msg).2.trace = w.trace ++ Event.send_msg agentid msg ::
        Event.CreateSecMSG msg agentid ((w.ext w.calls).CreateSecMSG msg agentid) :: evs) ∧
    ((w.ext w.calls).CreateSecMSG msg agentid ≠ 0 → (w.ext w.calls).pthread_mutex_lock = 0 →
      Event.sendto agentid ((w.ext w.calls).CreateSecMSG msg agentid) (w.ext w.calls).sendto
        ∈ (send_msg cfg w agentid msg).2.trace ∧
      ((w.ext w.calls).pthread_mutex_unlock = 0 → (send_msg cfg w agentid msg).1 = 0)) := by
  have hlt : ¬ (w.ext w.calls).rcvd agentid < (w.ext w.calls).time - 2 * cfg.NOTIFY_TIME := by
    omega
  constructor
  · unfold send_msg
    simp only [hlt, if_false, World.log]
    split_ifs <;>
      exact ⟨_, by (try simp only [List.append_assoc, List.singleton_append, List.cons_append,
            List.nil_append]); rfl⟩
  · intro hc hl
    unfold send_msg
    simp only [hlt, hc, hl, if_false, World.log, ne_eq, not_true_eq_false]
    constructor
    · split_ifs <;> simp
    · intro hu
      simp [hu]

/-- Witness for the amended C10: the peer exactly at the threshold. -/
theorem boundary_is_live_witness :
    (∃ evs, (send_msg specConfig boundaryWorld 0 sampleCommand).2.trace =
        boundaryWorld.trace ++ Event.send_msg 0 sampleCommand ::
        Event.CreateSecMSG sampleCommand 0
          ((boundaryWorld.ext boundaryWorld.calls).CreateSecMSG sampleCommand 0) :: evs) ∧
    ((boundaryWorld.ext boundaryWorld.calls).CreateSecMSG sampleCommand 0 ≠ 0 →
      (boundaryWorld.ext boundaryWorld.calls).pthread_mutex_lock = 0 →
      Event.sendto 0 ((boundaryWorld.ext boundaryWorld.calls).CreateSecMSG sampleCommand 0)
          (boundaryWorld.ext boundaryWorld.calls).sendto
        ∈ (send_msg specConfig boundaryWorld 0 sampleCommand).2.trace ∧
      ((boundaryWorld.ext boundaryWorld.calls).pthread_mutex_unlock = 0 →
        (send_msg specConfig boundaryWorld 0 sampleCommand).1 = 0)) :=
  boundary_is_live specConfig boundaryWorld 0 sampleCommand (by decide)

/-- C4 fails on the code: a line that ends right after its closing
parenthesis lacks all three space delimiters, yet it is dispatched when the
buffer still holds bytes of an earlier line. Line 76 steps two bytes past the
parenthesis, over the terminator of the received line, and the scans go on
in what an earlier iteration left in the buffer. Received first, the line
`(a)` is rejected. Received after the rejected line
`(ab 10.0.0.5 100 - reboot`, it is broadcast with the payload `reboot`.
Likewise `(no-delimiters-in-this-line)`, received after a well-formed
directive for agentB whose payload is `run 100 agentC reboot`, is broadcast
to the whole roster with the payload `reboot`. -/
theorem missing_delimiters_dispatched :
    directive specConfig (State.init okWorld).msg "(a)".toList = none ∧
    sendCalls (AR_Forward specConfig sampleKeys okWorld [lineNoParen]).world.trace = [] ∧
    sendCalls (AR_Forward specConfig sampleKeys okWorld [lineNoParen, "(a)".toList]).world.trace
      = [(0, rebootCommand), (1, rebootCommand), (2, rebootCommand)] ∧
    sendCalls (AR_Forward specConfig sampleKeys okWorld [lineWithArguments]).world.trace
      = [(1, "#!-execd run 100 agentC reboot".toList)] ∧
    sendCalls (AR_Forward specConfig sampleKeys okWorld
        [lineWithArguments, lineNoDelimiters]).world.trace
      = [(1, "#!-execd run 100 agentC reboot".toList),
         (0, rebootCommand), (1, rebootCommand), (2, rebootCommand)] := by
  decide!

/-- C11: encryption failure. For every call of `send_msg` that finds a live
peer and gets a zero-length result from `CreateSecMSG`, the result is -1 and
the call does nothing after the encryption but report `SEC_ERROR`: the lock
is not acquired and no datagram is written. Inside a broadcast, when the call
for the roster index `k` fails in this way, the loop still calls `send_msg`
for each of the remaining indices `k + 1`, ..., `keysize - 1`, in order. -/
theorem encryption_failure_aborts (cfg : Config) :
    (∀ (w : World) (a : Int) (m : List Char),
      ¬ (w.ext w.calls).rcvd a < (w.ext w.calls).time - 2 * cfg.NOTIFY_TIME →
      (w.ext w.calls).CreateSecMSG m a = 0 →
      (send_msg cfg w a m).1 = -1 ∧
      (send_msg cfg w a m).2.trace =
        w.trace ++ [Event.send_msg a m, Event.CreateSecMSG m a 0, Event.merror_sec]) ∧
    (∀ (keys : keystore) (w : World) (m : List Char) (k : Nat),
      k < keys.keysize.toNat →
      ¬ (w.ext (w.calls + k)).rcvd (Int.ofNat k)
          < (w.ext (w.calls + k)).time - 2 * cfg.NOTIFY_TIME →
      (w.ext (w.calls + k)).CreateSecMSG m (Int.ofNat k) = 0 →
      ∃ pre post, (send_all cfg keys w m).trace =
          w.trace ++ pre ++ [Event.send_msg (Int.ofNat k) m,
            Event.CreateSecMSG m (Int.ofNat k) 0, Event.merror_sec] ++ post ∧
        sendCalls pre = (List.range k).map (fun i => (Int.ofNat i, m)) ∧
        sendCalls post = (List.range' (k + 1) (keys.keysize.toNat - (k + 1))).map
          (fun i => (Int.ofNat i, m))) := by
  refine ⟨fun w a m hlive henc => send_msg_enc_fail cfg w a m hlive henc, ?_⟩
  intro keys w m k hk hlive henc
  obtain ⟨pre, hpre, hcpre, -⟩ := foldl_send_msg_trace cfg m (List.range k) w
  obtain ⟨hext, hcalls⟩ := foldl_send_msg_ext_calls cfg m (List.range k) w
  rw [List.length_range] at hcalls
  have hk1 := send_msg_enc_fail cfg
    ((List.range k).foldl (fun w i => (send_msg cfg w (Int.ofNat i) m).2) w) (Int.ofNat k) m
    (by rw [hext, hcalls]; exact hlive) (by rw [hext, hcalls]; exact henc)
  obtain ⟨post, hpost, hcpost, -⟩ := foldl_send_msg_trace cfg m
    (List.range' (k + 1) (keys.keysize.toNat - (k + 1)))
    (send_msg cfg ((List.range k).foldl (fun w i => (send_msg cfg w (Int.ofNat i) m).2) w)
      (Int.ofNat k) m).2
  refine ⟨pre, post, ?_, hcpre, hcpost⟩
  unfold send_all
  rw [range_split _ k hk, List.foldl_append, List.foldl_cons, hpost, hk1.2, hpre]

/-- Witness for C11: a broadcast to the three peers of the sample roster in
a world where the encryption fails for the second call. -/
theorem encryption_failure_aborts_witness :
    ∃ pre post, (send_all specConfig sampleKeys encFailWorld sampleCommand).trace =
        encFailWorld.trace ++ pre ++ [Event.send_msg (Int.ofNat 1) sampleCommand,
          Event.CreateSecMSG sampleCommand (Int.ofNat 1) 0, Event.merror_sec] ++ post ∧
      sendCalls pre = (List.range 1).map (fun i => (Int.ofNat i, sampleCommand)) ∧
      sendCalls post = (List.range' (1 + 1) (sampleKeys.keysize.toNat - (1 + 1))).map
        (fun i => (Int.ofNat i, sampleCommand)) :=
  (encryption_failure_aborts specConfig).2 sampleKeys encFailWorld sampleCommand 1
    (by decide) (by decide) (by decide)

/-- C12: lock protocol of `send_msg`, on the trace of its lock, write and
unlock events. For every call, in every world: each datagram write happens
while the lock is held by a successful `pthread_mutex_lock` of this call; the
call writes at most once; every successful acquisition and every write,
failed or not, is followed by a call of `pthread_mutex_unlock`; and a call
that started with the lock free ends with the lock free whenever the unlock
operation returns 0. -/
theorem lock_protocol (cfg : Config) (w : World) (a : Int) (m : List Char) :
    ∃ evs, (send_msg cfg w a m).2.trace = w.trace ++ Event.send_msg a m :: evs ∧
      writesLocked false evs = true ∧
      writeCount evs ≤ 1 ∧
      releaseFollows evs = true ∧
      (∀ size r, Event.sendto a size r ∈ evs →
        Event.pthread_mutex_lock 0 ∈ evs ∧
        Event.pthread_mutex_unlock (w.ext w.calls).pthread_mutex_unlock ∈ evs) ∧
      ((w.ext w.calls).pthread_mutex_unlock = 0 → lockAfter false evs = false) := by
  unfold send_msg
  simp only [World.log]
  split_ifs with h1 h2 h3 h4 h5 <;>
    exact ⟨_, by (try simp only [List.append_assoc, List.singleton_append, List.cons_append,
            List.nil_append]); rfl,
      by simp_all [writesLocked], by simp [writeCount],
      by simp_all [releaseFollows, hasUnlock], by simp_all, by simp_all [lockAfter]⟩

/-- C13 fails on the code: `send_msg` is documented to return -1 on error,
yet when the datagram write fails (`sendto` returns -1) and the other
external calls succeed, the write failure is reported with `SEND_ERROR`, the
lock is released, and the result is 0. -/
theorem write_failure_returns_zero :
    (sendFailWorld.ext sendFailWorld.calls).sendto < 0 ∧
    (send_msg specConfig sendFailWorld 0 sampleCommand).1 = 0 ∧
    (send_msg specConfig sendFailWorld 0 sampleCommand).2.trace =
      [Event.send_msg 0 sampleCommand, Event.CreateSecMSG sampleCommand 0 32,
       Event.pthread_mutex_lock 0, Event.sendto 0 32 (-1), Event.merror_send 0,
       Event.pthread_mutex_unlock 0] := by
  decide

/-- C14: output construction. For every accepted directive, every call of
`send_msg` that the iteration makes carries the formatted command of the
directive; the formatted command is control header, then execd header, then
the payload, unchanged, when these fit in `OS_SIZE_1024 - 1` bytes; otherwise
it is the prefix of exactly `OS_SIZE_1024 - 1` bytes of that concatenation;
in both cases it is a prefix of the concatenation and not longer than
`OS_SIZE_1024 - 1` bytes. The payload is everything in the received buffer
after the space that ends the target peer id, up to the terminator. -/
theorem output_construction (cfg : Config) (keys : keystore) (st : State)
    (dgram : List Char) (d : Directive) (h : directive cfg st.msg dgram = some d) :
    (∃ evs, (AR_Forward_iter cfg keys st dgram).world.trace = st.world.trace ++ evs ∧
      ∀ c ∈ sendCalls evs, c.2 = d.msg_to_send cfg) ∧
    ((cfg.CONTROL_HEADER ++ cfg.EXECD_HEADER ++ d.payload).length ≤ OS_SIZE_1024 - 1 →
      d.msg_to_send cfg = cfg.CONTROL_HEADER ++ cfg.EXECD_HEADER ++ d.payload) ∧
    (OS_SIZE_1024 - 1 < (cfg.CONTROL_HEADER ++ cfg.EXECD_HEADER ++ d.payload).length →
      d.msg_to_send cfg
        = (cfg.CONTROL_HEADER ++ cfg.EXECD_HEADER ++ d.payload).take (OS_SIZE_1024 - 1) ∧
      (d.msg_to_send cfg).length = OS_SIZE_1024 - 1) ∧
    d.msg_to_send cfg <+: cfg.CONTROL_HEADER ++ cfg.EXECD_HEADER ++ d.payload ∧
    (d.msg_to_send cfg).length ≤ OS_SIZE_1024 - 1 ∧
    ∃ pre sep addr mode id R4,
      (OS_RecvUnix OS_SIZE_1024 st.msg dgram).2 =
        pre ++ ')' :: sep :: (addr ++ ' ' :: (mode ++ ' ' :: (id ++ ' ' :: R4))) ∧
      (∀ x ∈ pre, x ≠ ')' ∧ x ≠ NUL) ∧ (∀ x ∈ addr, x ≠ ' ' ∧ x ≠ NUL) ∧
      (∀ x ∈ mode, x ≠ ' ' ∧ x ≠ NUL) ∧ (∀ x ∈ id, x ≠ ' ' ∧ x ≠ NUL) ∧
      d.payload = R4.takeWhile (fun x => x != NUL) := by
  refine ⟨iter_calls_message cfg keys st dgram d h, ?_, ?_, ?_, ?_, ?_⟩
  rotate_right
  · obtain ⟨pre, sep, addr, mode, id, R4, hb, hpre, haddr, hmode, hid, -, -, -, hpl⟩ :=
      directive_accepted cfg st.msg dgram d h
    exact ⟨pre, sep, addr, mode, id, R4, hb, hpre, haddr, hmode, hid, hpl⟩
  · intro hfit
    simp only [Directive.msg_to_send, snprintf]
    exact List.take_of_length_le hfit
  · intro hlong
    refine ⟨rfl, ?_⟩
    simp only [Directive.msg_to_send, snprintf, List.length_take]
    omega
  · simp only [Directive.msg_to_send, snprintf]
    exact List.take_prefix _ _
  · simp only [Directive.msg_to_send, snprintf, List.length_take]
    omega

/-- Witness for C14: a broadcast directive whose payload has 1015 bytes; the
formatted command is cut to 1023 bytes and each of the three peers of the
sample roster is sent exactly that. -/
theorem output_construction_witness :
    directive specConfig (State.init okWorld).msg lineLongPayload
      = some ⟨1, [], [], List.replicate 1015 'x'⟩ ∧
    (Directive.msg_to_send specConfig ⟨1, [], [], List.replicate 1015 'x'⟩
        = (specConfig.CONTROL_HEADER ++ specConfig.EXECD_HEADER ++
            List.replicate 1015 'x').take (OS_SIZE_1024 - 1) ∧
      (Directive.msg_to_send specConfig ⟨1, [], [], List.replicate 1015 'x'⟩).length
        = OS_SIZE_1024 - 1) ∧
    ∃ evs, (AR_Forward_iter specConfig sampleKeys (State.init okWorld)
        lineLongPayload).world.trace = (State.init okWorld).world.trace ++ evs ∧
      ∀ c ∈ sendCalls evs,
        c.2 = Directive.msg_to_send specConfig ⟨1, [], [], List.replicate 1015 'x'⟩ :=
  ⟨by decide!,
   (output_construction specConfig sampleKeys (State.init okWorld) lineLongPayload
      ⟨1, [], [], List.replicate 1015 'x'⟩ (by decide!)).2.2.1 (by decide!),
   (output_construction specConfig sampleKeys (State.init okWorld) lineLongPayload
      ⟨1, [], [], List.replicate 1015 'x'⟩ (by decide!)).1⟩

/-- C15, as the claim states it, fails: in the accepted line
`(agentA) 10.0.0.5 0 1b cmd` the mode-code field is the single character
`0`, which has no position 2, yet the SpecificPeer flag is set: the byte
tested for it is the first character of the target peer id, and the
iteration looks that id up. -/
theorem short_mode_field_sets_flag :
    wireLine "agentA".toList "10.0.0.5".toList "0".toList "1b".toList "cmd".toList
      = lineShortMode ∧
    directive specConfig (State.init okWorld).msg lineShortMode
      = some ⟨4, "agentA".toList, "1b".toList, "cmd".toList⟩ ∧
    4 &&& specConfig.SPECIFIC_AGENT ≠ 0 ∧
    (AR_Forward specConfig sampleKeys okWorld [lineShortMode]).world.trace
      = [Event.IsAllowedID "1b".toList (-1), Event.merror_noagent "1b".toList] := by
  decide!

/-- C15, amended: mode-code decoding. For every accepted directive, with
distinct flag bits, each of the three flags is set exactly when the byte at
offset 0, 1, 2 after the space that ends the source address is the sentinel
of that flag, each offset on its own. For every position that the mode-code
field has, this byte is the character of the field at that position, so the
flag is set exactly when the field has the sentinel there. For a position
that the field is too short to have, the byte tested is the separating space
or a byte after it. -/
theorem mode_decoding (cfg : Config) (hcfg : cfg.flagsDistinct) (buf dgram : List Char)
    (d : Directive) (h : directive cfg buf dgram = some d) :
    ∃ pre sep addr mode id R4,
      (OS_RecvUnix OS_SIZE_1024 buf dgram).2 =
        pre ++ ')' :: sep :: (addr ++ ' ' :: (mode ++ ' ' :: (id ++ ' ' :: R4))) ∧
      (∀ x ∈ pre, x ≠ ')' ∧ x ≠ NUL) ∧ (∀ x ∈ addr, x ≠ ' ' ∧ x ≠ NUL) ∧
      (∀ x ∈ mode, x ≠ ' ' ∧ x ≠ NUL) ∧ (∀ x ∈ id, x ≠ ' ' ∧ x ≠ NUL) ∧
      (d.ar_location &&& cfg.ALL_AGENTS ≠ 0 ↔
        (mode ++ ' ' :: (id ++ ' ' :: R4)).getD 0 NUL = cfg.ALL_AGENTS_C) ∧
      (d.ar_location &&& cfg.REMOTE_AGENT ≠ 0 ↔
        (mode ++ ' ' :: (id ++ ' ' :: R4)).getD 1 NUL = cfg.REMOTE_AGENT_C) ∧
      (d.ar_location &&& cfg.SPECIFIC_AGENT ≠ 0 ↔
        (mode ++ ' ' :: (id ++ ' ' :: R4)).getD 2 NUL = cfg.SPECIFIC_AGENT_C) ∧
      (0 < mode.length →
        (d.ar_location &&& cfg.ALL_AGENTS ≠ 0 ↔ mode.getD 0 NUL = cfg.ALL_AGENTS_C)) ∧
      (1 < mode.length →
        (d.ar_location &&& cfg.REMOTE_AGENT ≠ 0 ↔ mode.getD 1 NUL = cfg.REMOTE_AGENT_C)) ∧
      (2 < mode.length →
        (d.ar_location &&& cfg.SPECIFIC_AGENT ≠ 0 ↔ mode.getD 2 NUL = cfg.SPECIFIC_AGENT_C)) := by
  obtain ⟨pre, sep, addr, mode, id, R4, hb, hpre, haddr, hmode, hid, hal, -, -, -⟩ :=
    directive_accepted cfg buf dgram d h
  obtain ⟨f0, f1, f2⟩ := modeBits_flags cfg hcfg
    ((mode ++ ' ' :: (id ++ ' ' :: R4)).getD 0 NUL)
    ((mode ++ ' ' :: (id ++ ' ' :: R4)).getD 1 NUL)
    ((mode ++ ' ' :: (id ++ ' ' :: R4)).getD 2 NUL)
  rw [← hal] at f0 f1 f2
  refine ⟨pre, sep, addr, mode, id, R4, hb, hpre, haddr, hmode, hid, f0, f1, f2, ?_, ?_, ?_⟩
  · intro hk
    rw [f0, List.getD_append _ _ _ _ hk]
  · intro hk
    rw [f1, List.getD_append _ _ _ _ hk]
  · intro hk
    rw [f2, List.getD_append _ _ _ _ hk]

/-- Witness for the amended C15: the SpecificPeer example of the spec. -/
theorem mode_decoding_witness :
    ∃ pre sep addr mode id R4,
      (OS_RecvUnix OS_SIZE_1024 (State.init okWorld).msg lineSpecific).2 =
        pre ++ ')' :: sep :: (addr ++ ' ' :: (mode ++ ' ' :: (id ++ ' ' :: R4))) ∧
      (∀ x ∈ pre, x ≠ ')' ∧ x ≠ NUL) ∧ (∀ x ∈ addr, x ≠ ' ' ∧ x ≠ NUL) ∧
      (∀ x ∈ mode, x ≠ ' ' ∧ x ≠ NUL) ∧ (∀ x ∈ id, x ≠ ' ' ∧ x ≠ NUL) ∧
      ((4 : Nat) &&& specConfig.ALL_AGENTS ≠ 0 ↔
        (mode ++ ' ' :: (id ++ ' ' :: R4)).getD 0 NUL = specConfig.ALL_AGENTS_C) ∧
      ((4 : Nat) &&& specConfig.REMOTE_AGENT ≠ 0 ↔
        (mode ++ ' ' :: (id ++ ' ' :: R4)).getD 1 NUL = specConfig.REMOTE_AGENT_C) ∧
      ((4 : Nat) &&& specConfig.SPECIFIC_AGENT ≠ 0 ↔
        (mode ++ ' ' :: (id ++ ' ' :: R4)).getD 2 NUL = specConfig.SPECIFIC_AGENT_C) ∧
      (0 < mode.length →
        ((4 : Nat) &&& specConfig.ALL_AGENTS ≠ 0 ↔ mode.getD 0 NUL = specConfig.ALL_AGENTS_C)) ∧
      (1 < mode.length →
        ((4 : Nat) &&& specConfig.REMOTE_AGENT ≠ 0 ↔
          mode.getD 1 NUL = specConfig.REMOTE_AGENT_C)) ∧
      (2 < mode.length →
        ((4 : Nat) &&& specConfig.SPECIFIC_AGENT ≠ 0 ↔
          mode.getD 2 NUL = specConfig.SPECIFIC_AGENT_C)) :=
  mode_decoding specConfig (by unfold Config.flagsDistinct; decide)
    (State.init okWorld).msg lineSpecific
    ⟨4, "agentA".toList, "agentB".toList, "restart-service".toList⟩ (by decide!)

/-- C17 fails on the code: in the accepted line `) 10.0.0.5 010 - cmd` the
first closing parenthesis is the very first byte, so the name should be
empty; line 87 steps `location` over the terminator written at index 0, and
the name looked up is the text that follows, up to the end of the mode code.
For every accepted line with at least one byte before the parenthesis the
name is the one the claim states (lemma `name_of_accepted`). -/
theorem leading_paren_name_not_empty :
    directive specConfig (State.init okWorld).msg lineLeadingParen
      = some ⟨2, " 10.0.0.5 010".toList, "-".toList, "cmd".toList⟩ ∧
    (AR_Forward specConfig sampleKeys okWorld [lineLeadingParen]).world.trace
      = [Event.IsAllowedName " 10.0.0.5 010".toList (-1),
         Event.merror_noagent " 10.0.0.5 010".toList] := by
  decide!

/-- C18: parsing a well-formed line is independent of the history. For every
line `(name) addr mode id payload` whose fields are C text without their
delimiter, and which fits the receive limit, there is one directive (mode
bits, originating peer name, target peer id, payload, and with them the
formatted command) that the iteration extracts from the line whatever the
buffer holds; in particular receiving the line again, after it has been
parsed in place and after any further datagrams, gives the same directive as
the first time. -/
theorem parse_history_independent (cfg : Config) (keys : keystore)
    (name addr mode id payload : List Char)
    (hname : ∀ x ∈ name, x ≠ ')' ∧ x ≠ NUL)
    (haddr : ∀ x ∈ addr, x ≠ ' ' ∧ x ≠ NUL)
    (hmode : ∀ x ∈ mode, x ≠ ' ' ∧ x ≠ NUL)
    (hid : ∀ x ∈ id, x ≠ ' ' ∧ x ≠ NUL)
    (hpay : ∀ x ∈ payload, x ≠ NUL)
    (hlen : (wireLine name addr mode id payload).length ≤ OS_SIZE_1024 - 1) :
    ∃ d : Directive,
      (∀ buf, directive cfg buf (wireLine name addr mode id payload) = some d) ∧
      d.location = name ∧ d.ar_agent_id = id ∧ d.payload = payload ∧
      (∀ (st : State) (dgrams : List (List Char)),
        directive cfg (dgrams.foldl (AR_Forward_iter cfg keys)
            (AR_Forward_iter cfg keys st (wireLine name addr mode id payload))).msg
          (wireLine name addr mode id payload)
        = directive cfg st.msg (wireLine name addr mode id payload)) := by
  refine ⟨_, fun buf => directive_wireLine cfg buf name addr mode id payload
    hname haddr hmode hid hpay hlen, rfl, rfl, rfl, ?_⟩
  intro st dgrams
  rw [directive_wireLine cfg _ name addr mode id payload hname haddr hmode hid hpay hlen,
    directive_wireLine cfg _ name addr mode id payload hname haddr hmode hid hpay hlen]

/-- Witness for C18: the SpecificPeer example of the spec. -/
theorem parse_history_independent_witness :
    wireLine "agentA".toList "10.0.0.5".toList "001".toList "agentB".toList
      "restart-service".toList = lineSpecific ∧
    ∃ d : Directive,
      (∀ buf, directive specConfig buf (wireLine "agentA".toList "10.0.0.5".toList
        "001".toList "agentB".toList "restart-service".toList) = some d) ∧
      d.location = "agentA".toList ∧ d.ar_agent_id = "agentB".toList ∧
      d.payload = "restart-service".toList ∧
      (∀ (st : State) (dgrams : List (List Char)),
        directive specConfig (dgrams.foldl (AR_Forward_iter specConfig sampleKeys)
            (AR_Forward_iter specConfig sampleKeys st (wireLine "agentA".toList
              "10.0.0.5".toList "001".toList "agentB".toList "restart-service".toList))).msg
          (wireLine "agentA".toList "10.0.0.5".toList "001".toList "agentB".toList
            "restart-service".toList)
        = directive specConfig st.msg (wireLine "agentA".toList "10.0.0.5".toList
            "001".toList "agentB".toList "restart-service".toList)) :=
  ⟨by decide,
   parse_history_independent specConfig sampleKeys "agentA".toList "10.0.0.5".toList
    "001".toList "agentB".toList "restart-service".toList
    (by decide) (by decide) (by decide) (by decide) (by decide) (by decide)⟩

/-- C19: the increment `ar_location++` of the SpecificPeer path is dead. For
every sequence of datagrams, every roster and every world, the daemon loop
with the increment removed leaves the same world (the same lookups, the same
calls of `send_msg` with what they do, the same error reports, in the same
order) and the same receive buffer as the daemon loop of the source. -/
theorem increment_is_dead (cfg : Config) (keys : keystore) (w : World)
    (dgrams : List (List Char)) :
    (AR_Forward_noinc cfg keys w dgrams).world = (AR_Forward cfg keys w dgrams).world ∧
    (AR_Forward_noinc cfg keys w dgrams).world.trace
      = (AR_Forward cfg keys w dgrams).world.trace ∧
    (AR_Forward_noinc cfg keys w dgrams).msg = (AR_Forward cfg keys w dgrams).msg := by
  obtain ⟨h1, h2⟩ := run_noinc_agrees cfg keys dgrams (State.init w) (State.init w) rfl rfl
  exact ⟨h2, by rw [AR_Forward_noinc, AR_Forward, h2], h1⟩

/-- C20: a directive without any flag is dropped. For every accepted
directive in which none of the three mode bits is set, the iteration leaves
the world as it was: no roster lookup, no call of `send_msg`, no error
report; the loop goes on with the next datagram. -/
theorem no_flag_dropped (cfg : Config) (keys : keystore) (st : State)
    (dgram : List Char) (d : Directive) (h : directive cfg st.msg dgram = some d)
    (hA : d.ar_location &&& cfg.ALL_AGENTS = 0) (hR : d.ar_location &&& cfg.REMOTE_AGENT = 0)
    (hS : d.ar_location &&& cfg.SPECIFIC_AGENT = 0) :
    (AR_Forward_iter cfg keys st dgram).world = st.world ∧
    (AR_Forward_iter cfg keys st dgram).world.trace = st.world.trace ∧
    ∀ rest : List (List Char),
      (dgram :: rest).foldl (AR_Forward_iter cfg keys) st
        = rest.foldl (AR_Forward_iter cfg keys) (AR_Forward_iter cfg keys st dgram) := by
  have hw : (AR_Forward_iter cfg keys st dgram).world = st.world := by
    rw [iter_world_of_directive cfg keys st dgram d h, dispatch_none _ _ _ _ _ _ _ hA hR hS]
  exact ⟨hw, by rw [hw], fun _ => rfl⟩

/-- Witness for C20: a well-delimited line with the mode code `000`. -/
theorem no_flag_dropped_witness :
    directive specConfig (State.init okWorld).msg lineNoFlag
      = some ⟨0, "agentA".toList, "agentB".toList, "restart-service".toList⟩ ∧
    (AR_Forward_iter specConfig sampleKeys (State.init okWorld) lineNoFlag).world
      = (State.init okWorld).world ∧
    (AR_Forward_iter specConfig sampleKeys (State.init okWorld) lineNoFlag).world.trace
      = (State.init okWorld).world.trace ∧
    ∀ rest : List (List Char),
      (lineNoFlag :: rest).foldl (AR_Forward_iter specConfig sampleKeys) (State.init okWorld)
        = rest.foldl (AR_Forward_iter specConfig sampleKeys)
            (AR_Forward_iter specConfig sampleKeys (State.init okWorld) lineNoFlag) :=
  ⟨by decide!,
   no_flag_dropped specConfig sampleKeys (State.init okWorld) lineNoFlag
    ⟨0, "agentA".toList, "agentB".toList, "restart-service".toList⟩ (by decide!)
    (by decide) (by decide) (by decide)⟩

/-- C16: concurrent calls of `send_msg` never overlap in the lock or in the
write. Take any number of callers, each making one call of `send_msg`, and
any schedule that interleaves the traces of these calls and in which the
mutex grants the lock only when it is free. Then at every point of the
schedule at most one caller holds the lock; the caller that holds it is the
holder of the mutex; and every datagram write and every unlock is made by
the caller that holds the lock at that moment, while no other caller holds
it; after a write the writer still holds the lock. -/
theorem writes_never_overlap (cfg : Config) (callers : Nat → Caller)
    (sched : List (Nat × Event))
    (hint : interleaving (fun i => callTrace cfg (callers i)) sched = true)
    (hgr : granted none sched = true) :
    ∀ pre post, sched = pre ++ post →
      (∀ i j, holdsLock i pre = true → holdsLock j pre = true → i = j) ∧
      (∀ i, holdsLock i pre = true ↔ mutexAfter none pre = some i) ∧
      (∀ s rest, post = s :: rest → (isWrite s.2 = true ∨ isUnlock s.2 = true) →
        mutexAfter none pre = some s.1 ∧ holdsLock s.1 pre = true ∧
        (∀ j, j ≠ s.1 → holdsLock j pre = false) ∧
        (isWrite s.2 = true → holdsLock s.1 (pre ++ [s]) = true)) := by
  intro pre post hs
  have hinv := mutex_invariant (fun i => callTrace cfg (callers i)) sched hint hgr
    (fun i => critLocked_callTrace cfg (callers i)) pre post hs
  refine ⟨?_, hinv, ?_⟩
  · intro i j hi hj
    have h1 := (hinv i).1 hi
    have h2 := (hinv j).1 hj
    rw [h1] at h2
    exact Option.some.inj h2
  · intro s rest hp hev
    have hheld := holds_before_critical cfg callers sched pre rest s hint (by rw [hs, hp]) hev
    have hm := (hinv s.1).1 hheld
    refine ⟨hm, hheld, ?_, ?_⟩
    · intro j hj
      cases hh : holdsLock j pre with
      | false => rfl
      | true =>
        have h2 := (hinv j).1 hh
        rw [hm] at h2
        exact absurd (Option.some.inj h2).symm hj
    · intro hw
      obtain ⟨k, e⟩ := s
      have hp2 : projection k [(k, e)] = [e] := by simp [projection]
      simp only [holdsLock, projection_append, lockAfter_append, hp2]
      cases e <;> simp_all [isWrite, lockAfter, holdsLock]

/-- Witness for C16: two calls, one of which waits for the lock while the
other writes. -/
theorem writes_never_overlap_witness :
    interleaving (fun i => callTrace specConfig ((fun _ => okCaller) i)) sampleSchedule = true ∧
    granted none sampleSchedule = true ∧
    ∀ pre post, sampleSchedule = pre ++ post →
      (∀ i j, holdsLock i pre = true → holdsLock j pre = true → i = j) ∧
      (∀ i, holdsLock i pre = true ↔ mutexAfter none pre = some i) ∧
      (∀ s rest, post = s :: rest → (isWrite s.2 = true ∨ isUnlock s.2 = true) →
        mutexAfter none pre = some s.1 ∧ holdsLock s.1 pre = true ∧
        (∀ j, j ≠ s.1 → holdsLock j pre = false) ∧
        (isWrite s.2 = true → holdsLock s.1 (pre ++ [s]) = true)) :=
  ⟨by decide, by decide,
   writes_never_overlap specConfig (fun _ => okCaller) sampleSchedule (by decide) (by decide)⟩

end ARForward
